import Mathlib

set_option maxRecDepth 8000

/-!
Verification of the dependency-graph evaluation scheduler in
source/blender/depsgraph/intern/depsgraph_eval.cc.

The scheduler is embedded shallowly and sequentially: the task pool is
modelled as a FIFO queue drained by a single worker (the debug mode
G_DEBUG_DEPSGRAPH_NO_THREADS forces exactly this behaviour, and the spec
requires it to produce the same results as the parallel execution).
Atomic operations on the num_links_pending counters (uint32) and the
scheduled flags (uint8 treated as bool) become plain state updates; the
uint32 decrement keeps its wrap-around semantics.  Recursion through the
graph (NOOP cascades in schedule_node, the same-thread chaining loop in
deg_task_run_func, and the pool drain) is bounded with explicit fuel;
the driver passes fuel that is proved sufficient.  The states carry
ghost observation traces: executed (calls of node->evaluate), visited
(iterations of the worker loop), submitted (BLI_task_pool_push calls).
-/

/-- Per-node static data of an OperationDepsNode (depsnode_operation.h).
needs_update models the DEPSOP_FLAG_NEEDS_UPDATE bit of node->flag,
evaluate models whether the evaluate callback is non-null, and
id_layers models node->owner->owner->layers (the owning IDDepsNode's
layer bitmask). -/
structure OperationDepsNode where
  needs_update : Bool
  evaluate : Bool
  id_layers : Nat
  deriving Repr, DecidableEq, Inhabited

/-- Modelled from the spec: a NOOP carries no executable work, so
is_noop holds exactly when the evaluate callback is null (the body of
OperationDepsNode::is_noop lives in a header outside this repository
snapshot). -/
def OperationDepsNode.is_noop (n : OperationDepsNode) : Bool := !n.evaluate

/-- A DepsRelation.  from_op models rel->from->type == DEPSNODE_TYPE_OPERATION,
src is the index of rel->from among the graph's operations (meaningful when
from_op), dst the index of rel->to (always an operation, asserted in the
source), and cyclic the DEPSREL_FLAG_CYCLIC bit of rel->flag. -/
structure DepsRelation where
  from_op : Bool
  src : Nat
  dst : Nat
  cyclic : Bool
  deriving Repr, DecidableEq, Inhabited

/-- The time source node; cfra is its frame time (scene time values are
only copied around, never computed with, so Int stands in for float). -/
structure TimeSourceDepsNode where
  cfra : Int
  deriving Repr, DecidableEq

/-- The dependency graph.  operations is graph->operations (indices are
node identities), rels the set of relations, entry_tags the graph's tag
set (only its emptiness and clearing matter here), time_source the
result of graph->find_time_source() (modelled from the spec as an
optional node: the lookup lives outside this repository snapshot), and
layers is graph->layers. -/
structure Depsgraph where
  operations : List OperationDepsNode
  rels : List DepsRelation
  entry_tags : List Nat
  time_source : Option TimeSourceDepsNode
  layers : Nat

/-- The evaluation context (DEG_depsgraph.h): mode plus the scene time
set once per pass. -/
structure EvaluationContext where
  mode : Int
  ctime : Int
  deriving Repr, DecidableEq

/-- Node lookup by index; out-of-range indices yield the default node,
which is never eligible for scheduling (needs_update is false). -/
def Depsgraph.op (g : Depsgraph) (i : Nat) : OperationDepsNode :=
  g.operations.getD i default

/-- Relation lookup by index into g.rels. -/
def relAt (g : Depsgraph) (k : Nat) : DepsRelation :=
  g.rels.getD k default

/-- The layer test (id_layers & layers) != 0. -/
def nodeInLayers (n : OperationDepsNode) (layers : Nat) : Bool :=
  Nat.land n.id_layers layers != 0

/-- The guard repeated throughout the source:
(node->flag & DEPSOP_FLAG_NEEDS_UPDATE) != 0 && (id_layers & layers) != 0. -/
def elig (g : Depsgraph) (layers : Nat) (i : Nat) : Bool :=
  (g.op i).needs_update && nodeInLayers (g.op i) layers

/-- Indices of node->outlinks for operation node i: the relations whose
source is operation i, in relation-list order. -/
def outlinksIdx (g : Depsgraph) (i : Nat) : List Nat :=
  (List.range g.rels.length).filter
    (fun k => (relAt g k).from_op && (relAt g k).src == i)

/-- The non-cyclic outgoing relations of node i (those that take part in
the pending-count protocol). -/
def ncOutIdx (g : Depsgraph) (i : Nat) : List Nat :=
  (outlinksIdx g i).filter (fun k => !(relAt g k).cyclic)

/-- Indices of the incoming relations of node c that
calculate_pending_func counts: non-cyclic relations from an operation
node that is itself within the layer mask and needs update. -/
def depIdx (g : Depsgraph) (layers : Nat) (c : Nat) : List Nat :=
  (List.range g.rels.length).filter
    (fun k => (relAt g k).dst == c && (relAt g k).from_op &&
              !(relAt g k).cyclic && elig g layers (relAt g k).src)

/-- The uint32 atomic_sub_uint32(p, 1): wraps on underflow. -/
def dec32 (p : Nat) : Nat := (p + 4294967295) % 4294967296

/-- The mutable per-pass evaluation state: num_links_pending and
scheduled (and the unused priority bookkeeping field done) per node,
the pool queue, and the ghost observation traces. -/
structure EvalState where
  num_links_pending : Nat → Nat
  scheduled : Nat → Bool
  done : Nat → Nat
  pool : List Nat
  executed : List Nat
  visited : List Nat
  submitted : List Nat

/-- State at the start of a pass (a freshly observed pass: empty pool
and traces; counters are rewritten by the pre-pass anyway). -/
def initState : EvalState where
  num_links_pending := fun _ => 0
  scheduled := fun _ => false
  done := fun _ => 0
  pool := []
  executed := []
  visited := []
  submitted := []

/-- BLI_task_pool_push_from_thread: records the submission and appends
the node to the pool queue. -/
def taskPoolPush (i : Nat) (st : EvalState) : EvalState :=
  { st with pool := st.pool ++ [i], submitted := st.submitted ++ [i] }

/-- The loop of schedule_children (depsgraph_eval.cc:374) over a list
of outgoing-relation indices: skip already-scheduled children,
otherwise schedule them, decrementing their pending count exactly when
the relation is non-cyclic.  The call into schedule_node is abstracted
as snode to tie the recursive knot (schedule_node passes itself at one
fuel less). -/
def schedule_children_rels (g : Depsgraph)
    (snode : Nat → Bool → EvalState → EvalState) :
    List Nat → EvalState → EvalState
  | [], st => st
  | k :: rest, st =>
    let child := (relAt g k).dst
    let st' := if st.scheduled child then st
               else snode child (!(relAt g k).cyclic) st
    schedule_children_rels g snode rest st'

/-- schedule_node (depsgraph_eval.cc:326): schedule node i if it needs
evaluation; when dec_parents, first atomically decrement its pending
count; when the count is zero, atomically test-and-set scheduled and,
on a fresh claim, either recurse into the children for a NOOP or push
the node to the task pool.  Fuel bounds the depth of NOOP cascades and
is proved sufficient below. -/
def schedule_node (g : Depsgraph) (layers : Nat) :
    Nat → Nat → Bool → EvalState → EvalState
  | 0, _, _, st => st
  | fuel + 1, i, dec_parents, st =>
    if elig g layers i then
      let st1 := if dec_parents then
          { st with num_links_pending := Function.update st.num_links_pending i (dec32 (st.num_links_pending i)) }
        else st
      if st1.num_links_pending i == 0 then
        let is_scheduled := st1.scheduled i
        let st2 := { st1 with scheduled := Function.update st1.scheduled i true }
        if !is_scheduled then
          if (g.op i).is_noop then
            schedule_children_rels g (schedule_node g layers fuel) (outlinksIdx g i) st2
          else
            taskPoolPush i st2
        else st2
      else st1
    else st

/-- schedule_children: fan out over node->outlinks. -/
def schedule_children (g : Depsgraph) (layers : Nat) (fuel : Nat) (i : Nat)
    (st : EvalState) : EvalState :=
  schedule_children_rels g (schedule_node g layers fuel) (outlinksIdx g i) st

/-- schedule_graph (depsgraph_eval.cc:361): seed the scheduler with
every operation node (dec_parents false). -/
def schedule_graph (g : Depsgraph) (layers : Nat) (fuel : Nat)
    (st : EvalState) : EvalState :=
  (List.range g.operations.length).foldl
    (fun st i => schedule_node g layers fuel i false st) st

/-- deg_task_run_func (depsgraph_eval.cc:137): the worker execution
loop.  Each iteration visits the current node, runs its evaluate
callback when present, then either chains into a sole outgoing child
(claiming it after decrementing its pending count over a non-cyclic
relation) or fans out to all children and leaves. -/
def deg_task_run_func (g : Depsgraph) (layers : Nat) :
    Nat → Nat → EvalState → EvalState
  | 0, _, st => st
  | fuel + 1, i, st =>
    let st := { st with visited := st.visited ++ [i] }
    let st := if (g.op i).evaluate then { st with executed := st.executed ++ [i] }
              else st
    match outlinksIdx g i with
    | [k] =>
      let child := (relAt g k).dst
      if st.scheduled child then
        st
      else if !(elig g layers child) then
        st
      else
        let st1 := if !(relAt g k).cyclic then
            { st with num_links_pending := Function.update st.num_links_pending child (dec32 (st.num_links_pending child)) }
          else st
        if st1.num_links_pending child == 0 then
          let is_scheduled := st1.scheduled child
          let st2 := { st1 with scheduled := Function.update st1.scheduled child true }
          if !is_scheduled then
            deg_task_run_func g layers fuel child st2
          else
            st2
        else
          st1
    | _ => schedule_children g layers fuel i st

/-- BLI_task_pool_work_and_wait with a single worker: repeatedly pop
the front of the queue and run deg_task_run_func on it (tfuel bounds
each worker loop, fuel the number of pops). -/
def run_pool (g : Depsgraph) (layers : Nat) (tfuel : Nat) :
    Nat → EvalState → EvalState
  | 0, st => st
  | fuel + 1, st =>
    match st.pool with
    | [] => st
    | i :: rest =>
      run_pool g layers tfuel fuel
        (deg_task_run_func g layers tfuel i { st with pool := rest })

/-- The pending count that calculate_pending_func computes for node i:
the number of counted incoming relations when the node is within the
layer mask and needs update, zero otherwise. -/
def pendingCount (g : Depsgraph) (layers : Nat) (i : Nat) : Nat :=
  if elig g layers i then (depIdx g layers i).length else 0

/-- calculate_pending_func (depsgraph_eval.cc:248): reset node i's
scheduled flag and recompute its pending count from its inlinks. -/
def calculate_pending_func (g : Depsgraph) (layers : Nat) (i : Nat)
    (st : EvalState) : EvalState :=
  { st with
    num_links_pending := Function.update st.num_links_pending i (pendingCount g layers i)
    scheduled := Function.update st.scheduled i false }

/-- calculate_pending_parents (depsgraph_eval.cc:281), sequential form
(BLI_task_parallel_range over all operation indices). -/
def calculate_pending_parents (g : Depsgraph) (layers : Nat)
    (st : EvalState) : EvalState :=
  (List.range g.operations.length).foldl
    (fun st i => calculate_pending_func g layers i st) st

/-- Modelled from the spec: the parallel reading of the readiness
pre-pass, in which every node's pending count and claimed flag are
recomputed independently with no cross-node synchronization (each
node's result depends only on the read-only graph). -/
def calculate_pending_parents_parallel (g : Depsgraph) (layers : Nat)
    (st : EvalState) : EvalState :=
  { st with
    num_links_pending := fun i =>
      if i < g.operations.length then pendingCount g layers i
      else st.num_links_pending i
    scheduled := fun i =>
      if i < g.operations.length then false else st.scheduled i }

/-- The driver's clear-tags loop over operation nodes (node->done = 0). -/
def clear_done (g : Depsgraph) (st : EvalState) : EvalState :=
  (List.range g.operations.length).foldl
    (fun st i => { st with done := Function.update st.done i 0 }) st

/-- DEG_evaluate_on_refresh_ex (depsgraph_eval.cc:400).  Returns none
exactly when the source dereferences a null time source (the early-out
for an empty tag set happens first).  The fuel passed to the scheduler
and the pool drain is proved sufficient below. -/
def DEG_evaluate_on_refresh_ex (eval_ctx : EvaluationContext) (g : Depsgraph)
    (layers : Nat) (st : EvalState) :
    Option (EvaluationContext × Depsgraph × EvalState) :=
  if g.entry_tags.length == 0 then some (eval_ctx, g, st)
  else
    match g.time_source with
    | none => none
    | some time_src =>
      let eval_ctx := { eval_ctx with ctime := time_src.cfra }
      let n := g.operations.length
      let st := calculate_pending_parents g layers st
      let st := clear_done g st
      let st := schedule_graph g layers (n + 1) st
      let st := run_pool g layers (n + 2) (2 * n + 2) st
      some (eval_ctx, { g with entry_tags := [] }, st)

/-- DEG_evaluate_on_refresh (depsgraph_eval.cc:465): write the scene
frame into the time source (dereferenced without a null check), then
run a pass over the graph's own layers. -/
def DEG_evaluate_on_refresh (eval_ctx : EvaluationContext) (g : Depsgraph)
    (scene_frame : Int) (st : EvalState) :
    Option (EvaluationContext × Depsgraph × EvalState) :=
  match g.time_source with
  | none => none
  | some _ =>
    DEG_evaluate_on_refresh_ex eval_ctx
      { g with time_source := some { cfra := scene_frame } } g.layers st

/-- DEG_evaluate_on_framechange (depsgraph_eval.cc:477): write ctime
into the time source (dereferenced without a null check), tag it and
flush updates through the external collaborators (modelled from the
spec as an arbitrary graph transformation flush, since tag_update and
DEG_graph_flush_updates live outside this repository snapshot), then
run a full pass. -/
def DEG_evaluate_on_framechange (flush : Depsgraph → Depsgraph)
    (eval_ctx : EvaluationContext) (g : Depsgraph) (ctime : Int)
    (layers : Nat) (st : EvalState) :
    Option (EvaluationContext × Depsgraph × EvalState) :=
  match g.time_source with
  | none => none
  | some _ =>
    let g1 := { g with time_source := some { cfra := ctime } }
    DEG_evaluate_on_refresh_ex eval_ctx (flush g1) layers st

/-- DEG_needs_eval (depsgraph_eval.cc:495). -/
def DEG_needs_eval (g : Depsgraph) : Bool :=
  g.entry_tags.length != 0

/-- The evaluation state produced by a full pass of
DEG_evaluate_on_refresh_ex from a fresh state (the composition of its
pre-pass, seeding and pool-drain phases). -/
def finalState (g : Depsgraph) (layers : Nat) : EvalState :=
  run_pool g layers (g.operations.length + 2) (2 * g.operations.length + 2)
    (schedule_graph g layers (g.operations.length + 1)
      (clear_done g (calculate_pending_parents g layers initState)))

/-! ### Well-formedness, invariant and specification vocabulary -/

/-- Well-formed graphs: relation endpoints index real operation nodes
and the relation count fits comfortably in a uint32 (so the pending
counters never saturate). -/
def GraphWF (g : Depsgraph) : Prop :=
  (∀ r ∈ g.rels, r.dst < g.operations.length ∧
     (r.from_op = true → r.src < g.operations.length)) ∧
  g.rels.length + 1 < 4294967296

/-- Number of not-yet-claimed operation nodes. -/
def freeCount (g : Depsgraph) (st : EvalState) : Nat :=
  ((Finset.range g.operations.length).filter
    (fun i => st.scheduled i = false)).card

/-- The non-cyclic outgoing relations of c as a set of indices: the
satisfaction obligations a claim of c creates. -/
def ncOutFinset (g : Depsgraph) (c : Nat) : Finset Nat :=
  (ncOutIdx g c).toFinset

/-- The number of counted dependencies of c that are still unsatisfied:
relations whose source has not been claimed yet, or whose satisfaction
(the matching decrement of c's counter) is still owed by a claimed
source. -/
def countStill (g : Depsgraph) (layers : Nat) (sched : Nat → Bool)
    (O : Finset Nat) (c : Nat) : Nat :=
  ((depIdx g layers c).filter
    (fun k => !sched (relAt g k).src || decide (k ∈ O))).length

/-- Node j's work is done: either it has no work function or its work
function has run. -/
def completedNode (g : Depsgraph) (st : EvalState) (j : Nat) : Prop :=
  (g.op j).evaluate = true → j ∈ st.executed

/-- All counted dependencies of c are complete. -/
def depsDone (g : Depsgraph) (layers : Nat) (st : EvalState) (c : Nat) : Prop :=
  ∀ k ∈ depIdx g layers c, completedNode g st (relAt g k).src

/-- Stability of node c: once all its counted dependencies are
satisfied (counter at zero), c has been claimed.  Established node by
node while the scheduler is seeded, preserved afterwards. -/
def SProp (g : Depsgraph) (layers : Nat) (st : EvalState) (c : Nat) : Prop :=
  elig g layers c = true → st.num_links_pending c = 0 → st.scheduled c = true

/-- State evolution during scheduling: claims are never revoked and the
traces only grow. -/
def StExt (st st' : EvalState) : Prop :=
  (∀ c, st.scheduled c = true → st'.scheduled c = true) ∧
  (∃ t, st'.executed = st.executed ++ t) ∧
  (∃ t, st'.pool = st.pool ++ t) ∧
  (∃ t, st'.submitted = st.submitted ++ t)

/-- The executed trace respects dependencies: every execution of a node
comes after the executions of all its counted dependencies that carry
work. -/
def execRespectsDeps (g : Depsgraph) (layers : Nat) (l : List Nat) : Prop :=
  ∀ nn c, l.get? nn = some c → ∀ k ∈ depIdx g layers c,
    (g.op (relAt g k).src).evaluate = true → (relAt g k).src ∈ l.take nn

/-- The scheduling invariant.  O is the set of owed satisfactions
(non-cyclic relations whose source has been claimed but whose matching
decrement of the target's counter has not happened yet); A lists the
claimed nodes currently being processed by a worker (their run or
fan-out still in flight). -/
structure SchedInv (g : Depsgraph) (layers : Nat) (O : Finset Nat) (A : List Nat)
    (st : EvalState) : Prop where
  pendAcc : ∀ c, elig g layers c = true → st.scheduled c = false →
    st.num_links_pending c = countStill g layers st.scheduled O c
  ofanValid : ∀ k ∈ O, k < g.rels.length ∧ (relAt g k).from_op = true ∧
    (relAt g k).cyclic = false ∧ st.scheduled (relAt g k).src = true
  ofanOwner : ∀ k ∈ O, (relAt g k).src ∈ st.pool ∨ (relAt g k).src ∈ A
  discharged : ∀ k, k < g.rels.length → (relAt g k).from_op = true →
    (relAt g k).cyclic = false → st.scheduled (relAt g k).src = true →
    k ∉ O → completedNode g st (relAt g k).src ∨
      st.scheduled (relAt g k).dst = true
  schedElig : ∀ c, st.scheduled c = true → elig g layers c = true
  schedRun : ∀ c, st.scheduled c = true → (g.op c).evaluate = true →
    c ∈ st.executed ∨ c ∈ st.pool ∨ c ∈ A
  nodups : (st.executed ++ st.pool).Nodup
  memSched : ∀ c, c ∈ st.executed ∨ c ∈ st.pool ∨ c ∈ A →
    st.scheduled c = true
  poolWork : ∀ c ∈ st.pool, (g.op c).evaluate = true
  poolOblig : ∀ c ∈ st.pool, ∀ k ∈ ncOutIdx g c, k ∈ O
  readyDeps : ∀ c, c ∈ st.pool ∨ c ∈ A → depsDone g layers st c
  traceOrder : execRespectsDeps g layers st.executed
  subWork : ∀ c ∈ st.submitted, (g.op c).evaluate = true

/-- Obligations carried by a list of outgoing-relation indices: the
non-cyclic ones. -/
def ncObl (g : Depsgraph) (ks : List Nat) : Finset Nat :=
  (ks.filter (fun k => !(relAt g k).cyclic)).toFinset

/-- Common postcondition of every scheduling routine, relative to the
frame O of obligations not touched by the call: the invariant again
holds for some obligation set extending O in which every new obligation
is owned by a newly pushed pool entry; the state only grows; node
stability is preserved; queued work plus unclaimed nodes does not
increase; and new pool entries were unclaimed before the call. -/
structure SchedPost (g : Depsgraph) (layers : Nat) (O : Finset Nat)
    (A : List Nat) (st st' : EvalState) : Prop where
  inv : ∃ O' : Finset Nat, SchedInv g layers O' A st' ∧ O ⊆ O' ∧
    ∀ k ∈ O', k ∈ O ∨ (relAt g k).src ∈ st'.pool
  ext : StExt st st'
  spres : ∀ d, SProp g layers st d → SProp g layers st' d
  meas : st'.pool.length + freeCount g st' ≤ st.pool.length + freeCount g st
  poolNew : ∀ c ∈ st'.pool, c ∈ st.pool ∨ st.scheduled c = false

/-- Specification of schedule_node with dec_parents false at a given
fuel (used for the seeding pass and for cyclic relations in fan-out). -/
def NodeSpecFalse (g : Depsgraph) (layers fuel : Nat) : Prop :=
  ∀ st i O A, GraphWF g → freeCount g st < fuel →
    SchedInv g layers O A st →
    SchedPost g layers O A st (schedule_node g layers fuel i false st) ∧
    SProp g layers (schedule_node g layers fuel i false st) i

/-- Specification of schedule_node with dec_parents true at a given
fuel: the call is the satisfaction of the owed obligation k whose
source has completed. -/
def NodeSpecTrue (g : Depsgraph) (layers fuel : Nat) : Prop :=
  ∀ st i O A k, GraphWF g → freeCount g st < fuel →
    SchedInv g layers (insert k O) A st → k ∉ O →
    (relAt g k).dst = i →
    completedNode g st (relAt g k).src →
    (relAt g k).src ∉ st.pool →
    SchedPost g layers O A st (schedule_node g layers fuel i true st) ∧
    SProp g layers (schedule_node g layers fuel i true st) i

/-! ### Concrete graphs used as witnesses and counterexamples -/

/-- A linear chain of four nodes 0 → 1 → 2 → 3, all tagged, all with
work, all on layer 1. -/
def wChain : Depsgraph where
  operations := [⟨true, true, 1⟩, ⟨true, true, 1⟩, ⟨true, true, 1⟩, ⟨true, true, 1⟩]
  rels := [⟨true, 0, 1, false⟩, ⟨true, 1, 2, false⟩, ⟨true, 2, 3, false⟩]
  entry_tags := [0]
  time_source := some ⟨5⟩
  layers := 1

/-- Two nodes 0 and 1 with relations 0 → 1 and 1 → 0, both flagged
cyclic; both tagged, both with work, both on layer 1. -/
def wCycle : Depsgraph where
  operations := [⟨true, true, 1⟩, ⟨true, true, 1⟩]
  rels := [⟨true, 0, 1, true⟩, ⟨true, 1, 0, true⟩]
  entry_tags := [0]
  time_source := some ⟨5⟩
  layers := 1

/-- Node 0 (with work) feeding node 1, a NOOP (null work function);
both tagged and on layer 1. -/
def wNoop : Depsgraph where
  operations := [⟨true, true, 1⟩, ⟨true, false, 1⟩]
  rels := [⟨true, 0, 1, false⟩]
  entry_tags := [0]
  time_source := some ⟨5⟩
  layers := 1

/-- Node 0 on layer 1 feeding node 1 on layer 2; both tagged. -/
def wLayers : Depsgraph where
  operations := [⟨true, true, 1⟩, ⟨true, true, 2⟩]
  rels := [⟨true, 0, 1, false⟩]
  entry_tags := [0]
  time_source := some ⟨5⟩
  layers := 1

/-- A single tagged node, no relations. -/
def wSingle : Depsgraph where
  operations := [⟨true, true, 1⟩]
  rels := []
  entry_tags := [0]
  time_source := some ⟨5⟩
  layers := 1

/-- A graph with an empty tag set. -/
def wEmptyTags : Depsgraph where
  operations := [⟨true, true, 1⟩]
  rels := []
  entry_tags := []
  time_source := some ⟨5⟩
  layers := 1

/-- A tagged graph with no time source. -/
def wNoTime : Depsgraph where
  operations := [⟨true, true, 1⟩]
  rels := []
  entry_tags := [0]
  time_source := none
  layers := 1

/-! ### Basic lemmas about the vocabulary -/

theorem EvalState.eq_of_fields {a b : EvalState}
    (h1 : a.num_links_pending = b.num_links_pending)
    (h2 : a.scheduled = b.scheduled) (h3 : a.done = b.done)
    (h4 : a.pool = b.pool) (h5 : a.executed = b.executed)
    (h6 : a.visited = b.visited) (h7 : a.submitted = b.submitted) : a = b := by
  cases a; cases b; simp_all

theorem relAt_bounds {g : Depsgraph} {k : Nat} (hk : k < g.rels.length) :
    relAt g k ∈ g.rels := by
  simp [relAt, List.getD_eq_getElem?_getD, List.getElem?_eq_getElem hk,
    List.getElem_mem hk]

theorem mem_depIdx {g : Depsgraph} {layers c k : Nat} :
    k ∈ depIdx g layers c ↔
      k < g.rels.length ∧ (relAt g k).dst = c ∧ (relAt g k).from_op = true ∧
      (relAt g k).cyclic = false ∧ elig g layers (relAt g k).src = true := by
  simp [depIdx, List.mem_filter, List.mem_range, and_assoc]

theorem mem_outlinksIdx {g : Depsgraph} {i k : Nat} :
    k ∈ outlinksIdx g i ↔
      k < g.rels.length ∧ (relAt g k).from_op = true ∧ (relAt g k).src = i := by
  simp [outlinksIdx, List.mem_filter, List.mem_range, and_assoc]

theorem mem_ncOutIdx {g : Depsgraph} {i k : Nat} :
    k ∈ ncOutIdx g i ↔
      k < g.rels.length ∧ (relAt g k).from_op = true ∧ (relAt g k).src = i ∧
      (relAt g k).cyclic = false := by
  simp [ncOutIdx, List.mem_filter, mem_outlinksIdx, and_assoc]

theorem mem_ncOutFinset {g : Depsgraph} {i k : Nat} :
    k ∈ ncOutFinset g i ↔
      k < g.rels.length ∧ (relAt g k).from_op = true ∧ (relAt g k).src = i ∧
      (relAt g k).cyclic = false := by
  simp [ncOutFinset, List.mem_toFinset, mem_ncOutIdx]

theorem depIdx_nodup (g : Depsgraph) (layers c : Nat) :
    (depIdx g layers c).Nodup :=
  (List.nodup_range _).filter _

theorem outlinksIdx_nodup (g : Depsgraph) (i : Nat) :
    (outlinksIdx g i).Nodup :=
  (List.nodup_range _).filter _

theorem ncOutIdx_nodup (g : Depsgraph) (i : Nat) : (ncOutIdx g i).Nodup :=
  (outlinksIdx_nodup g i).filter _

theorem depIdx_length_le (g : Depsgraph) (layers c : Nat) :
    (depIdx g layers c).length ≤ g.rels.length := by
  simpa using (List.length_filter_le _ (List.range g.rels.length))

theorem elig_oor {g : Depsgraph} {layers c : Nat}
    (h : g.operations.length ≤ c) : elig g layers c = false := by
  have : g.op c = default := List.getD_eq_default _ _ h
  simp [elig, this, default, nodeInLayers]

theorem elig_lt {g : Depsgraph} {layers c : Nat}
    (h : elig g layers c = true) : c < g.operations.length := by
  by_contra hc
  rw [elig_oor (Nat.le_of_not_lt hc)] at h
  exact Bool.false_ne_true h

theorem dec32_eq_pred {p : Nat} (h0 : p ≠ 0) (hb : p < 4294967296) :
    dec32 p = p - 1 := by
  unfold dec32
  omega

/-- Flipping a Bool predicate at a single member of a Nodup list drops
the filter length by one. -/
theorem length_filter_flip {l : List Nat} {p q : Nat → Bool} {k : Nat}
    (hl : l.Nodup) (hk : k ∈ l) (hpk : p k = true) (hqk : q k = false)
    (hpq : ∀ x ∈ l, x ≠ k → p x = q x) :
    (l.filter p).length = (l.filter q).length + 1 := by
  induction l with
  | nil => cases hk
  | cons a t ih =>
    rcases List.mem_cons.mp hk with rfl | hkt
    · have hat : ∀ x ∈ t, p x = q x := by
        intro x hx
        exact hpq x (List.mem_cons_of_mem _ hx)
          (fun hxa => (List.nodup_cons.mp hl).1 (hxa ▸ hx))
      rw [List.filter_cons, List.filter_cons]
      simp [hpk, hqk, List.filter_congr hat]
    · have hak : a ≠ k := fun h => (List.nodup_cons.mp hl).1 (h ▸ hkt)
      have hpa := hpq a (List.mem_cons_self _ _) hak
      have ih' := ih (List.nodup_cons.mp hl).2 hkt
        (fun x hx hxk => hpq x (List.mem_cons_of_mem _ hx) hxk)
      rw [List.filter_cons, List.filter_cons, hpa]
      cases hqa : q a <;> simp [hqa, ih']

theorem countStill_le (g : Depsgraph) (layers : Nat) (sched : Nat → Bool)
    (O : Finset Nat) (c : Nat) :
    countStill g layers sched O c ≤ g.rels.length :=
  le_trans (List.length_filter_le _ _) (depIdx_length_le g layers c)

theorem freeCount_le (g : Depsgraph) (st : EvalState) :
    freeCount g st ≤ g.operations.length := by
  simpa [freeCount] using
    le_trans (Finset.card_filter_le _ _) (le_of_eq (Finset.card_range _))

theorem freeCount_claim {g : Depsgraph} {st : EvalState} {c : Nat}
    (hc : c < g.operations.length) (hsc : st.scheduled c = false) :
    freeCount g { st with scheduled := Function.update st.scheduled c true }
      + 1 = freeCount g st := by
  classical
  have hset :
      ((Finset.range g.operations.length).filter
        (fun i => Function.update st.scheduled c true i = false)) =
      ((Finset.range g.operations.length).filter
        (fun i => st.scheduled i = false)).erase c := by
    ext i
    by_cases hic : i = c <;>
      simp [Finset.mem_filter, Finset.mem_erase, hic, Function.update_apply, hsc]
  have hmem : c ∈ (Finset.range g.operations.length).filter
      (fun i => st.scheduled i = false) := by
    simp [Finset.mem_filter, Finset.mem_range, hc, hsc]
  have hpos : 0 < ((Finset.range g.operations.length).filter
      (fun i => st.scheduled i = false)).card :=
    Finset.card_pos.mpr ⟨c, hmem⟩
  simp only [freeCount, hset, Finset.card_erase_of_mem hmem]
  omega

theorem freeCount_mono {g : Depsgraph} {st st' : EvalState}
    (h : ∀ c, st.scheduled c = true → st'.scheduled c = true) :
    freeCount g st' ≤ freeCount g st := by
  classical
  apply Finset.card_le_card
  intro i hi
  rw [Finset.mem_filter] at hi ⊢
  refine ⟨hi.1, ?_⟩
  cases hst : st.scheduled i
  · rfl
  · rw [h i hst] at hi
    exact absurd hi.2 (by simp)

theorem StExt.refl (st : EvalState) : StExt st st :=
  ⟨fun _ h => h, ⟨[], by simp⟩, ⟨[], by simp⟩, ⟨[], by simp⟩⟩

theorem StExt.trans {a b c : EvalState} (h1 : StExt a b) (h2 : StExt b c) :
    StExt a c := by
  obtain ⟨s1, ⟨e1, he1⟩, ⟨p1, hp1⟩, ⟨u1, hu1⟩⟩ := h1
  obtain ⟨s2, ⟨e2, he2⟩, ⟨p2, hp2⟩, ⟨u2, hu2⟩⟩ := h2
  exact ⟨fun d h => s2 d (s1 d h),
    ⟨e1 ++ e2, by simp [he2, he1]⟩,
    ⟨p1 ++ p2, by simp [hp2, hp1]⟩,
    ⟨u1 ++ u2, by simp [hu2, hu1]⟩⟩

theorem completedNode_mono {g : Depsgraph} {st st' : EvalState} {j : Nat}
    (h : completedNode g st j) (he : ∃ t, st'.executed = st.executed ++ t) :
    completedNode g st' j := by
  intro hev
  obtain ⟨t, ht⟩ := he
  rw [ht]
  exact List.mem_append_left _ (h hev)

theorem depsDone_mono {g : Depsgraph} {layers : Nat} {st st' : EvalState} {c : Nat}
    (h : depsDone g layers st c) (he : ∃ t, st'.executed = st.executed ++ t) :
    depsDone g layers st' c :=
  fun k hk => completedNode_mono (h k hk) he

theorem SchedInv.visited_irrel {g : Depsgraph} {layers : Nat} {O : Finset Nat}
    {A : List Nat} {st : EvalState} (h : SchedInv g layers O A st)
    (v : List Nat) : SchedInv g layers O A { st with visited := v } :=
  ⟨h.pendAcc, h.ofanValid, h.ofanOwner, h.discharged, h.schedElig, h.schedRun,
   h.nodups, h.memSched, h.poolWork, h.poolOblig, h.readyDeps, h.traceOrder,
   h.subWork⟩

/-- Discharging a satisfaction obligation towards a child that is
already claimed or not eligible: the obligation is dropped, and the
pending map may be replaced by anything that agrees on eligible
unclaimed nodes (the source performs the wrap-around decrement even on
an already-claimed child before breaking). -/
theorem SchedInv.offer_drop_pend {g : Depsgraph} {layers : Nat} {O : Finset Nat}
    {A : List Nat} {st : EvalState} {k : Nat} {f : Nat → Nat}
    (hInv : SchedInv g layers O A st) (hk : k ∈ O)
    (hcase : elig g layers (relAt g k).dst = false ∨
             st.scheduled (relAt g k).dst = true)
    (hdis : completedNode g st (relAt g k).src ∨
            st.scheduled (relAt g k).dst = true)
    (hsrcpool : (relAt g k).src ∉ st.pool)
    (hf : ∀ c, elig g layers c = true → st.scheduled c = false →
      f c = st.num_links_pending c) :
    SchedInv g layers (O.erase k) A { st with num_links_pending := f } := by
  classical
  refine ⟨?_, ?_, ?_, ?_, hInv.schedElig, hInv.schedRun, hInv.nodups,
    hInv.memSched, hInv.poolWork, ?_, hInv.readyDeps, hInv.traceOrder,
    hInv.subWork⟩
  · intro c helc hsc
    have hcd : c ≠ (relAt g k).dst := by
      rintro rfl
      rcases hcase with h | h
      · rw [helc] at h; cases h
      · rw [hsc] at h; cases h
    show f c = _
    rw [hf c helc hsc, hInv.pendAcc c helc hsc]
    unfold countStill
    refine congrArg List.length (List.filter_congr ?_)
    intro x hx
    have hxk : x ≠ k := by
      rintro rfl
      exact hcd (mem_depIdx.mp hx).2.1.symm
    simp [Finset.mem_erase, hxk]
  · intro x hx
    exact hInv.ofanValid x (Finset.mem_of_mem_erase hx)
  · intro x hx
    exact hInv.ofanOwner x (Finset.mem_of_mem_erase hx)
  · intro x hx1 hx2 hx3 hx4 hx5
    by_cases hxk : x = k
    · subst hxk
      exact hdis
    · exact hInv.discharged x hx1 hx2 hx3 hx4
        (fun hO => hx5 (Finset.mem_erase.mpr ⟨hxk, hO⟩))
  · intro c hc x hx
    have hxk : x ≠ k := by
      rintro rfl
      exact hsrcpool ((mem_ncOutIdx.mp hx).2.2.1 ▸ hc)
    exact Finset.mem_erase.mpr ⟨hxk, hInv.poolOblig c hc x hx⟩

/-- Discharging a satisfaction obligation towards an eligible unclaimed
child: the child's pending counter decrements by one and afterwards
equals the number of still-unsatisfied obligations. -/
theorem SchedInv.offer_dec {g : Depsgraph} {layers : Nat} {O : Finset Nat}
    {A : List Nat} {st : EvalState} {k : Nat}
    (hwf : GraphWF g) (hInv : SchedInv g layers O A st) (hk : k ∈ O)
    (helig : elig g layers (relAt g k).dst = true)
    (hsch : st.scheduled (relAt g k).dst = false)
    (hcomp : completedNode g st (relAt g k).src)
    (hsrcpool : (relAt g k).src ∉ st.pool) :
    SchedInv g layers (O.erase k)
      A { st with num_links_pending := Function.update st.num_links_pending (relAt g k).dst (dec32 (st.num_links_pending (relAt g k).dst)) } ∧
    Function.update st.num_links_pending (relAt g k).dst
        (dec32 (st.num_links_pending (relAt g k).dst)) (relAt g k).dst =
      countStill g layers st.scheduled (O.erase k) (relAt g k).dst := by
  classical
  obtain ⟨hklt, hkop, hkcyc, hksched⟩ := hInv.ofanValid k hk
  have hkdep : k ∈ depIdx g layers (relAt g k).dst :=
    mem_depIdx.mpr ⟨hklt, rfl, hkop, hkcyc, hInv.schedElig _ hksched⟩
  have hsplit : countStill g layers st.scheduled O (relAt g k).dst =
      countStill g layers st.scheduled (O.erase k) (relAt g k).dst + 1 := by
    apply length_filter_flip (depIdx_nodup g layers _) hkdep
    · simp [hksched, hk]
    · simp [hksched, Finset.mem_erase]
    · intro x hx hxk
      simp [Finset.mem_erase, hxk]
  have hpend := hInv.pendAcc _ helig hsch
  have hlt : st.num_links_pending (relAt g k).dst < 4294967296 := by
    have h1 := hwf.2
    have h2 := countStill_le g layers st.scheduled O (relAt g k).dst
    omega
  have hne : st.num_links_pending (relAt g k).dst ≠ 0 := by
    rw [hpend, hsplit]; omega
  have hdecv : dec32 (st.num_links_pending (relAt g k).dst) =
      countStill g layers st.scheduled (O.erase k) (relAt g k).dst := by
    rw [dec32_eq_pred hne hlt, hpend, hsplit]
    omega
  have hupd : Function.update st.num_links_pending (relAt g k).dst
      (dec32 (st.num_links_pending (relAt g k).dst)) (relAt g k).dst =
      countStill g layers st.scheduled (O.erase k) (relAt g k).dst := by
    rw [Function.update_same, hdecv]
  refine ⟨⟨?_, ?_, ?_, ?_, ?_, ?_, ?_, ?_, ?_, ?_, ?_, ?_, ?_⟩, hupd⟩
  · intro c helc hsc
    show Function.update st.num_links_pending (relAt g k).dst (dec32 (st.num_links_pending (relAt g k).dst)) c = countStill g layers st.scheduled (O.erase k) c
    by_cases hcd : c = (relAt g k).dst
    · subst hcd
      exact hupd
    · rw [Function.update_noteq hcd, hInv.pendAcc c helc hsc]
      unfold countStill
      refine congrArg List.length (List.filter_congr ?_)
      intro x hx
      have hxk : x ≠ k := by
        rintro rfl
        exact hcd (mem_depIdx.mp hx).2.1.symm
      simp [Finset.mem_erase, hxk]
  · intro x hx
    exact hInv.ofanValid x (Finset.mem_of_mem_erase hx)
  · intro x hx
    exact hInv.ofanOwner x (Finset.mem_of_mem_erase hx)
  · intro x hx1 hx2 hx3 hx4 hx5
    by_cases hxk : x = k
    · subst hxk
      exact Or.inl hcomp
    · exact hInv.discharged x hx1 hx2 hx3 hx4
        (fun hO => hx5 (Finset.mem_erase.mpr ⟨hxk, hO⟩))
  · exact hInv.schedElig
  · exact hInv.schedRun
  · exact hInv.nodups
  · exact hInv.memSched
  · exact hInv.poolWork
  · intro c hc x hx
    have hxk : x ≠ k := by
      rintro rfl
      exact hsrcpool ((mem_ncOutIdx.mp hx).2.2.1 ▸ hc)
    exact Finset.mem_erase.mpr ⟨hxk, hInv.poolOblig c hc x hx⟩
  · exact hInv.readyDeps
  · exact hInv.traceOrder
  · exact hInv.subWork

/-- Freshly claiming an eligible node whose counter is at zero: its
dependencies are all complete, and its own non-cyclic outgoing
relations become owed satisfactions with the node as owner. -/
theorem SchedInv.claim_node {g : Depsgraph} {layers : Nat} {O : Finset Nat}
    {A : List Nat} {st : EvalState} {i : Nat}
    (hInv : SchedInv g layers O A st) (hel : elig g layers i = true)
    (hsch : st.scheduled i = false) (hz : st.num_links_pending i = 0) :
    SchedInv g layers (ncOutFinset g i ∪ O) (i :: A)
      { st with scheduled := Function.update st.scheduled i true } ∧
    depsDone g layers st i ∧ i ∉ st.executed ∧ i ∉ st.pool ∧
    (∀ k ∈ O, (relAt g k).src ≠ i) ∧
    freeCount g { st with scheduled := Function.update st.scheduled i true }
      + 1 = freeCount g st := by
  classical
  have hin : i < g.operations.length := elig_lt hel
  have hcnt : countStill g layers st.scheduled O i = 0 := by
    rw [← hInv.pendAcc i hel hsch, hz]
  have hdeps : ∀ k ∈ depIdx g layers i,
      st.scheduled (relAt g k).src = true ∧ k ∉ O := by
    intro k hk
    have hfil := List.filter_eq_nil_iff.mp (List.length_eq_zero.mp hcnt) k hk
    constructor
    · by_contra hns
      apply hfil
      have : st.scheduled (relAt g k).src = false := by
        cases h : st.scheduled (relAt g k).src
        · rfl
        · exact absurd h hns
      simp [this]
    · intro hO
      exact hfil (by simp [hO])
  have hdd : depsDone g layers st i := by
    intro k hk
    obtain ⟨hs, hO⟩ := hdeps k hk
    have hkk := mem_depIdx.mp hk
    rcases hInv.discharged k hkk.1 hkk.2.2.1 hkk.2.2.2.1 hs hO with h | h
    · exact h
    · rw [hkk.2.1, hsch] at h
      cases h
  have hiex : i ∉ st.executed := by
    intro hmem
    rw [hInv.memSched i (Or.inl hmem)] at hsch
    cases hsch
  have hip : i ∉ st.pool := by
    intro hmem
    rw [hInv.memSched i (Or.inr (Or.inl hmem))] at hsch
    cases hsch
  have hOsrc : ∀ k ∈ O, (relAt g k).src ≠ i := by
    intro k hk heq
    have h := (hInv.ofanValid k hk).2.2.2
    rw [heq, hsch] at h
    cases h
  have hmono : ∀ c, st.scheduled c = true →
      Function.update st.scheduled i true c = true := by
    intro c h
    by_cases hci : c = i <;> simp [Function.update_apply, hci, h]
  refine ⟨⟨?_, ?_, ?_, ?_, ?_, ?_, hInv.nodups, ?_, hInv.poolWork, ?_, ?_,
    hInv.traceOrder, hInv.subWork⟩, hdd, hiex, hip, hOsrc,
    freeCount_claim hin hsch⟩
  · intro c helc hsc2
    have hci : c ≠ i := by
      rintro rfl
      simp [Function.update_same] at hsc2
    have hsc : st.scheduled c = false := by
      rwa [show ({ st with scheduled := Function.update st.scheduled i true } : EvalState).scheduled c = Function.update st.scheduled i true c from rfl, Function.update_noteq hci] at hsc2
    show st.num_links_pending c = _
    rw [hInv.pendAcc c helc hsc]
    unfold countStill
    refine congrArg List.length (List.filter_congr ?_)
    intro x hx
    have hxx := mem_depIdx.mp hx
    by_cases hsx : (relAt g x).src = i
    · have hxin : x ∈ ncOutFinset g i :=
        mem_ncOutFinset.mpr ⟨hxx.1, hxx.2.2.1, hsx, hxx.2.2.2.1⟩
      simp [hsx, Function.update_same, hsch, Finset.mem_union, hxin]
    · have hxout : x ∉ ncOutFinset g i := by
        intro hm
        exact hsx (mem_ncOutFinset.mp hm).2.2.1
      simp [Function.update_noteq hsx, Finset.mem_union, hxout]
  · intro k hk
    rcases Finset.mem_union.mp hk with h | h
    · obtain ⟨h1, h2, h3, h4⟩ := mem_ncOutFinset.mp h
      refine ⟨h1, h2, h4, ?_⟩
      rw [h3]
      exact Function.update_same _ _ _
    · obtain ⟨h1, h2, h3, h4⟩ := hInv.ofanValid k h
      exact ⟨h1, h2, h3, hmono _ h4⟩
  · intro k hk
    rcases Finset.mem_union.mp hk with h | h
    · exact Or.inr (by simp [(mem_ncOutFinset.mp h).2.2.1])
    · rcases hInv.ofanOwner k h with h' | h'
      · exact Or.inl h'
      · exact Or.inr (List.mem_cons_of_mem _ h')
  · intro k hk1 hk2 hk3 hk4 hk5
    by_cases hsk : (relAt g k).src = i
    · exact absurd (Finset.mem_union_left _
        (mem_ncOutFinset.mpr ⟨hk1, hk2, hsk, hk3⟩)) hk5
    · have hk4' : st.scheduled (relAt g k).src = true := by
        rwa [show ({ st with scheduled := Function.update st.scheduled i true } : EvalState).scheduled (relAt g k).src = Function.update st.scheduled i true (relAt g k).src from rfl, Function.update_noteq hsk] at hk4
      have hkO : k ∉ O := fun h => hk5 (Finset.mem_union_right _ h)
      rcases hInv.discharged k hk1 hk2 hk3 hk4' hkO with h | h
      · exact Or.inl h
      · exact Or.inr (hmono _ h)
  · intro c hc
    by_cases hci : c = i
    · subst hci; exact hel
    · apply hInv.schedElig
      rwa [show ({ st with scheduled := Function.update st.scheduled i true } : EvalState).scheduled c = Function.update st.scheduled i true c from rfl, Function.update_noteq hci] at hc
  · intro c hc hev
    by_cases hci : c = i
    · subst hci
      exact Or.inr (Or.inr (List.mem_cons_self _ _))
    · have hc' : st.scheduled c = true := by
        rwa [show ({ st with scheduled := Function.update st.scheduled i true } : EvalState).scheduled c = Function.update st.scheduled i true c from rfl, Function.update_noteq hci] at hc
      rcases hInv.schedRun c hc' hev with h | h | h
      · exact Or.inl h
      · exact Or.inr (Or.inl h)
      · exact Or.inr (Or.inr (List.mem_cons_of_mem _ h))
  · intro c hc
    rcases hc with h | h | h
    · exact hmono _ (hInv.memSched c (Or.inl h))
    · exact hmono _ (hInv.memSched c (Or.inr (Or.inl h)))
    · rcases List.mem_cons.mp h with rfl | h'
      · exact Function.update_same _ _ _
      · exact hmono _ (hInv.memSched c (Or.inr (Or.inr h')))
  · intro c hc x hx
    exact Finset.mem_union_right _ (hInv.poolOblig c hc x hx)
  · intro c hc
    rcases hc with h | h
    · exact hInv.readyDeps c (Or.inl h)
    · rcases List.mem_cons.mp h with rfl | h'
      · exact hdd
      · exact hInv.readyDeps c (Or.inr h')

/-- Pushing a freshly claimed non-NOOP node to the pool transfers the
ownership of its obligations from the active worker to the queue. -/
theorem SchedInv.push_node {g : Depsgraph} {layers : Nat} {O : Finset Nat}
    {A : List Nat} {st : EvalState} {i : Nat}
    (hInv : SchedInv g layers O (i :: A) st)
    (hev : (g.op i).evaluate = true) (hsch : st.scheduled i = true)
    (hOsub : ∀ k ∈ ncOutIdx g i, k ∈ O) (hid : depsDone g layers st i)
    (hiex : i ∉ st.executed) (hip : i ∉ st.pool) :
    SchedInv g layers O A (taskPoolPush i st) := by
  classical
  refine ⟨hInv.pendAcc, hInv.ofanValid, ?_, hInv.discharged, hInv.schedElig,
    ?_, ?_, ?_, ?_, ?_, ?_, hInv.traceOrder, ?_⟩
  · intro k hk
    rcases hInv.ofanOwner k hk with h | h
    · exact Or.inl (List.mem_append_left _ h)
    · rcases List.mem_cons.mp h with h' | h'
      · exact Or.inl (by rw [h']; exact List.mem_append_right _ (List.mem_singleton_self _))
      · exact Or.inr h'
  · intro c hc hevc
    rcases hInv.schedRun c hc hevc with h | h | h
    · exact Or.inl h
    · exact Or.inr (Or.inl (List.mem_append_left _ h))
    · rcases List.mem_cons.mp h with h' | h'
      · exact Or.inr (Or.inl (by rw [h']; exact List.mem_append_right _ (List.mem_singleton_self _)))
      · exact Or.inr (Or.inr h')
  · show (st.executed ++ (st.pool ++ [i])).Nodup
    rw [← List.append_assoc]
    rw [List.nodup_append]
    refine ⟨hInv.nodups, List.nodup_singleton _, ?_⟩
    intro a ha hai
    rw [List.mem_singleton] at hai
    subst hai
    rcases List.mem_append.mp ha with h | h
    · exact hiex h
    · exact hip h
  · intro c hc
    rcases hc with h | h | h
    · exact hInv.memSched c (Or.inl h)
    · rcases List.mem_append.mp h with h' | h'
      · exact hInv.memSched c (Or.inr (Or.inl h'))
      · rw [List.mem_singleton] at h'
        subst h'
        exact hsch
    · exact hInv.memSched c (Or.inr (Or.inr (List.mem_cons_of_mem _ h)))
  · intro c hc
    rcases List.mem_append.mp hc with h | h
    · exact hInv.poolWork c h
    · rw [List.mem_singleton] at h
      subst h
      exact hev
  · intro c hc x hx
    rcases List.mem_append.mp hc with h | h
    · exact hInv.poolOblig c h x hx
    · rw [List.mem_singleton] at h
      subst h
      exact hOsub x hx
  · intro c hc
    rcases hc with h | h
    · rcases List.mem_append.mp h with h' | h'
      · exact hInv.readyDeps c (Or.inl h')
      · rw [List.mem_singleton] at h'
        subst h'
        exact hid
    · exact hInv.readyDeps c (Or.inr (List.mem_cons_of_mem _ h))
  · intro c hc
    rcases List.mem_append.mp hc with h | h
    · exact hInv.subWork c h
    · rw [List.mem_singleton] at h
      subst h
      exact hev

/-- Running the work function of an active node appends it to the
executed trace; the trace stays dependency-ordered because the node's
counted dependencies completed before it was claimed. -/
theorem SchedInv.exec_node {g : Depsgraph} {layers : Nat} {O : Finset Nat}
    {A : List Nat} {st : EvalState} {i : Nat}
    (hInv : SchedInv g layers O (i :: A) st)
    (hiex : i ∉ st.executed) (hip : i ∉ st.pool) :
    SchedInv g layers O (i :: A) { st with executed := st.executed ++ [i] } := by
  classical
  have hext : ∃ t, (st.executed ++ [i]) = st.executed ++ t := ⟨[i], rfl⟩
  obtain ⟨hne, hnp, hdisj⟩ := List.nodup_append.mp hInv.nodups
  refine ⟨hInv.pendAcc, hInv.ofanValid, hInv.ofanOwner, ?_, hInv.schedElig,
    ?_, ?_, ?_, hInv.poolWork, hInv.poolOblig, ?_, ?_, hInv.subWork⟩
  · intro k hk1 hk2 hk3 hk4 hk5
    rcases hInv.discharged k hk1 hk2 hk3 hk4 hk5 with h | h
    · exact Or.inl (fun hev => List.mem_append_left _ (h hev))
    · exact Or.inr h
  · intro c hc hev
    rcases hInv.schedRun c hc hev with h | h | h
    · exact Or.inl (List.mem_append_left _ h)
    · exact Or.inr (Or.inl h)
    · exact Or.inr (Or.inr h)
  · show ((st.executed ++ [i]) ++ st.pool).Nodup
    rw [List.nodup_append]
    refine ⟨?_, hnp, ?_⟩
    · rw [List.nodup_append]
      refine ⟨hne, List.nodup_singleton _, ?_⟩
      intro a ha hai
      rw [List.mem_singleton] at hai
      subst hai
      exact hiex ha
    · intro a ha hap
      rcases List.mem_append.mp ha with h | h
      · exact hdisj h hap
      · rw [List.mem_singleton] at h
        subst h
        exact hip hap
  · intro c hc
    rcases hc with h | h | h
    · rcases List.mem_append.mp h with h' | h'
      · exact hInv.memSched c (Or.inl h')
      · rw [List.mem_singleton] at h'
        subst h'
        exact hInv.memSched c (Or.inr (Or.inr (List.mem_cons_self _ _)))
    · exact hInv.memSched c (Or.inr (Or.inl h))
    · exact hInv.memSched c (Or.inr (Or.inr h))
  · intro c hc
    exact depsDone_mono (hInv.readyDeps c hc) hext
  · intro nn c hget k hk hev
    show (relAt g k).src ∈ (st.executed ++ [i]).take nn
    rcases Nat.lt_trichotomy nn st.executed.length with hnn | hnn | hnn
    · rw [List.get?_append hnn] at hget
      have := hInv.traceOrder nn c hget k hk hev
      rw [List.take_append_eq_append_take, Nat.sub_eq_zero_of_le (le_of_lt hnn),
        List.take_zero, List.append_nil]
      exact this
    · subst hnn
      rw [List.get?_append_right (le_refl _), Nat.sub_self] at hget
      have hci : c = i := by
        simpa using hget.symm
      subst hci
      have hcomp := hInv.readyDeps c
        (Or.inr (List.mem_cons_self _ _)) k hk hev
      rw [List.take_append_eq_append_take, Nat.sub_self, List.take_zero,
        List.append_nil, List.take_length]
      exact hcomp
    · rw [List.get?_append_right (le_of_lt hnn)] at hget
      rcases Nat.exists_eq_add_of_lt hnn with ⟨m, hm⟩
      have hidx : nn - st.executed.length = m + 1 := by omega
      rw [hidx] at hget
      simp at hget

/-- A worker leaves a node: once the node's run is recorded and none of
the owed satisfactions are owned solely by it, it can be removed from
the active list. -/
theorem SchedInv.drop_active {g : Depsgraph} {layers : Nat} {O : Finset Nat}
    {A : List Nat} {st : EvalState} {i : Nat}
    (hInv : SchedInv g layers O (i :: A) st)
    (hOsrc : ∀ k ∈ O, (relAt g k).src = i → (relAt g k).src ∈ st.pool)
    (hrun : (g.op i).evaluate = true → i ∈ st.executed ∨ i ∈ st.pool) :
    SchedInv g layers O A st := by
  refine ⟨hInv.pendAcc, hInv.ofanValid, ?_, hInv.discharged, hInv.schedElig,
    ?_, hInv.nodups, ?_, hInv.poolWork, hInv.poolOblig, ?_, hInv.traceOrder,
    hInv.subWork⟩
  · intro k hk
    rcases hInv.ofanOwner k hk with h | h
    · exact Or.inl h
    · rcases List.mem_cons.mp h with h' | h'
      · exact Or.inl (h' ▸ hOsrc k hk h')
      · exact Or.inr h'
  · intro c hc hev
    rcases hInv.schedRun c hc hev with h | h | h
    · exact Or.inl h
    · exact Or.inr (Or.inl h)
    · rcases List.mem_cons.mp h with h' | h'
      · subst h'
        rcases hrun hev with h'' | h''
        · exact Or.inl h''
        · exact Or.inr (Or.inl h'')
      · exact Or.inr (Or.inr h')
  · intro c hc
    rcases hc with h | h | h
    · exact hInv.memSched c (Or.inl h)
    · exact hInv.memSched c (Or.inr (Or.inl h))
    · exact hInv.memSched c (Or.inr (Or.inr (List.mem_cons_of_mem _ h)))
  · intro c hc
    rcases hc with h | h
    · exact hInv.readyDeps c (Or.inl h)
    · exact hInv.readyDeps c (Or.inr (List.mem_cons_of_mem _ h))

theorem SchedInv.offer_drop {g : Depsgraph} {layers : Nat} {O : Finset Nat}
    {A : List Nat} {st : EvalState} {k : Nat}
    (hInv : SchedInv g layers O A st) (hk : k ∈ O)
    (hcase : elig g layers (relAt g k).dst = false ∨
             st.scheduled (relAt g k).dst = true)
    (hdis : completedNode g st (relAt g k).src ∨
            st.scheduled (relAt g k).dst = true)
    (hsrcpool : (relAt g k).src ∉ st.pool) :
    SchedInv g layers (O.erase k) A st :=
  hInv.offer_drop_pend hk hcase hdis hsrcpool (fun _ _ _ => rfl)

theorem SchedPost.of_self {g : Depsgraph} {layers : Nat} {O : Finset Nat}
    {A : List Nat} {st : EvalState} (hInv : SchedInv g layers O A st) :
    SchedPost g layers O A st st :=
  ⟨⟨O, hInv, Finset.Subset.refl O, fun k hk => Or.inl hk⟩, StExt.refl st,
   fun _ h => h, le_refl _, fun c hc => Or.inl hc⟩

theorem ncObl_nil (g : Depsgraph) : ncObl g [] = ∅ := rfl

theorem ncObl_cons_nc {g : Depsgraph} {k : Nat} {rest : List Nat}
    (h : (relAt g k).cyclic = false) :
    ncObl g (k :: rest) = insert k (ncObl g rest) := by
  simp [ncObl, List.filter_cons, h]

theorem ncObl_cons_cyc {g : Depsgraph} {k : Nat} {rest : List Nat}
    (h : (relAt g k).cyclic = true) :
    ncObl g (k :: rest) = ncObl g rest := by
  simp [ncObl, List.filter_cons, h]

theorem mem_ncObl {g : Depsgraph} {ks : List Nat} {x : Nat} :
    x ∈ ncObl g ks ↔ x ∈ ks ∧ (relAt g x).cyclic = false := by
  simp [ncObl, List.mem_filter]

theorem ncObl_outlinks (g : Depsgraph) (i : Nat) :
    ncObl g (outlinksIdx g i) = ncOutFinset g i := rfl

/-- Specification of the fan-out loop: given that schedule_node meets
its specification at the given fuel, discharging all obligations of a
completed claimed node p meets the common postcondition. -/
theorem schedule_children_rels_spec {g : Depsgraph} {layers fuel : Nat}
    (hnf : NodeSpecFalse g layers fuel) (hnt : NodeSpecTrue g layers fuel) :
    ∀ ks st O A p, GraphWF g → freeCount g st < fuel →
    (∀ x ∈ ks, x < g.rels.length ∧ (relAt g x).from_op = true ∧
      (relAt g x).src = p) →
    ks.Nodup →
    (∀ x ∈ ks, (relAt g x).cyclic = false → x ∉ O) →
    st.scheduled p = true → completedNode g st p → p ∉ st.pool →
    SchedInv g layers (ncObl g ks ∪ O) A st →
    SchedPost g layers O A st
      (schedule_children_rels g (schedule_node g layers fuel) ks st) := by
  intro ks
  induction ks with
  | nil =>
    intro st O A p _ _ _ _ _ _ _ _ hInv
    rw [show schedule_children_rels g (schedule_node g layers fuel) [] st = st
      from rfl]
    apply SchedPost.of_self
    rwa [ncObl_nil, Finset.empty_union] at hInv
  | cons k rest ih =>
    intro st O A p hwf hfuel hks hnd hdisj hp hcomp hpp hInv
    obtain ⟨hk1, hk2, hk3⟩ := hks k (List.mem_cons_self _ _)
    have hknr : k ∉ ncObl g rest := by
      intro hm
      exact (List.nodup_cons.mp hnd).1 (mem_ncObl.mp hm).1
    -- one unfolding of the loop
    rw [show schedule_children_rels g (schedule_node g layers fuel)
        (k :: rest) st =
        schedule_children_rels g (schedule_node g layers fuel) rest
          (if st.scheduled (relAt g k).dst then st
           else schedule_node g layers fuel (relAt g k).dst
             (!(relAt g k).cyclic) st) from rfl]
    by_cases hsched : st.scheduled (relAt g k).dst = true
    · -- child already claimed: skip (and drop the obligation if any)
      rw [if_pos hsched]
      have hInv' : SchedInv g layers (ncObl g rest ∪ O) A st := by
        cases hcyc : (relAt g k).cyclic with
        | true => rwa [ncObl_cons_cyc hcyc] at hInv
        | false =>
          have hkO : k ∉ O := hdisj k (List.mem_cons_self _ _) hcyc
          have hkin : k ∈ ncObl g (k :: rest) ∪ O :=
            Finset.mem_union_left _ (by
              rw [ncObl_cons_nc hcyc]; exact Finset.mem_insert_self _ _)
          have := hInv.offer_drop hkin (Or.inr hsched) (Or.inr hsched)
            (hk3 ▸ hpp)
          rwa [ncObl_cons_nc hcyc, Finset.insert_union,
            Finset.erase_insert (by
              rw [Finset.mem_union]
              rintro (h | h)
              · exact hknr h
              · exact hkO h)] at this
      exact ih st O A p hwf hfuel
        (fun x hx => hks x (List.mem_cons_of_mem _ hx))
        (List.nodup_cons.mp hnd).2
        (fun x hx hc => hdisj x (List.mem_cons_of_mem _ hx) hc)
        hp hcomp hpp hInv'
    · -- child not claimed: offer through schedule_node
      rw [if_neg hsched]
      have hpost1 : SchedPost g layers (ncObl g rest ∪ O) A st
          (schedule_node g layers fuel (relAt g k).dst
            (!(relAt g k).cyclic) st) := by
        cases hcyc : (relAt g k).cyclic with
        | true =>
          exact (hnf st (relAt g k).dst (ncObl g rest ∪ O) A hwf hfuel
            (by rwa [ncObl_cons_cyc hcyc] at hInv)).1
        | false =>
          have hkO : k ∉ O := hdisj k (List.mem_cons_self _ _) hcyc
          refine (hnt st (relAt g k).dst (ncObl g rest ∪ O) A k hwf hfuel
            ?_ ?_ rfl (hk3 ▸ hcomp) (hk3 ▸ hpp)).1
          · rwa [ncObl_cons_nc hcyc, Finset.insert_union] at hInv
          · rw [Finset.mem_union]
            rintro (h | h)
            · exact hknr h
            · exact hkO h
      set st1 := schedule_node g layers fuel (relAt g k).dst
        (!(relAt g k).cyclic) st with hst1
      obtain ⟨O1, hInv1, hsub1, hown1⟩ := hpost1.inv
      have hncsub : ncObl g rest ⊆ O1 :=
        fun x hx => hsub1 (Finset.mem_union_left _ hx)
      have hX : ncObl g rest ∪ (O1 \ ncObl g rest) = O1 :=
        Finset.union_sdiff_of_subset hncsub
      have hpost2 := ih st1 (O1 \ ncObl g rest) A p hwf
        (lt_of_le_of_lt (freeCount_mono hpost1.ext.1) hfuel)
        (fun x hx => hks x (List.mem_cons_of_mem _ hx))
        (List.nodup_cons.mp hnd).2
        (fun x hx hc hmem => (Finset.mem_sdiff.mp hmem).2
          (mem_ncObl.mpr ⟨hx, hc⟩))
        (hpost1.ext.1 p hp)
        (completedNode_mono hcomp hpost1.ext.2.1)
        (fun hmem => by
          rcases hpost1.poolNew p hmem with h | h
          · exact hpp h
          · rw [hp] at h; cases h)
        (by rwa [hX])
      -- compose the two posts
      refine ⟨?_, hpost1.ext.trans hpost2.ext, ?_, ?_, ?_⟩
      · obtain ⟨O2, hInv2, hsub2, hown2⟩ := hpost2.inv
        refine ⟨O2, hInv2, ?_, ?_⟩
        · intro x hx
          apply hsub2
          rw [Finset.mem_sdiff]
          refine ⟨hsub1 (Finset.mem_union_right _ hx), ?_⟩
          intro hm
          obtain ⟨hxr, hxc⟩ := mem_ncObl.mp hm
          exact hdisj x (List.mem_cons_of_mem _ hxr) hxc hx
        · intro x hx
          rcases hown2 x hx with h | h
          · obtain ⟨hxO1, hxnr⟩ := Finset.mem_sdiff.mp h
            rcases hown1 x hxO1 with h' | h'
            · rcases Finset.mem_union.mp h' with h'' | h''
              · exact absurd h'' hxnr
              · exact Or.inl h''
            · obtain ⟨t, ht⟩ := hpost2.ext.2.2.1
              exact Or.inr (by rw [ht]; exact List.mem_append_left _ h')
          · exact Or.inr h
      · exact fun d hd => hpost2.spres d (hpost1.spres d hd)
      · exact le_trans hpost2.meas hpost1.meas
      · intro c hc
        rcases hpost2.poolNew c hc with h | h
        · rcases hpost1.poolNew c h with h' | h'
          · exact Or.inl h'
          · exact Or.inr h'
        · cases hcs : st.scheduled c
          · exact Or.inr rfl
          · rw [hpost1.ext.1 c hcs] at h
            cases h

/-- The shared tail of schedule_node after a fresh claim: a NOOP fans
out immediately, anything else is pushed to the pool. -/
theorem sched_claim_branch {g : Depsgraph} {layers fuel : Nat}
    (hnf : NodeSpecFalse g layers fuel) (hnt : NodeSpecTrue g layers fuel) :
    ∀ st i O A, GraphWF g → freeCount g st < fuel + 1 →
    SchedInv g layers O A st → elig g layers i = true →
    st.scheduled i = false → st.num_links_pending i = 0 →
    SchedPost g layers O A st
      (if (g.op i).is_noop then
        schedule_children_rels g (schedule_node g layers fuel)
          (outlinksIdx g i)
          { st with scheduled := Function.update st.scheduled i true }
      else taskPoolPush i
          { st with scheduled := Function.update st.scheduled i true }) ∧
    SProp g layers
      (if (g.op i).is_noop then
        schedule_children_rels g (schedule_node g layers fuel)
          (outlinksIdx g i)
          { st with scheduled := Function.update st.scheduled i true }
      else taskPoolPush i
          { st with scheduled := Function.update st.scheduled i true }) i := by
  intro st i O A hwf hfuel hInv hel hs hz
  obtain ⟨hInv2, hdd, hiex, hip, hOsrc, hfree⟩ := hInv.claim_node hel hs hz
  have hmono : ∀ c, st.scheduled c = true →
      Function.update st.scheduled i true c = true := by
    intro c h
    by_cases hci : c = i <;> simp [Function.update_apply, hci, h]
  have hs2 : ({ st with scheduled := Function.update st.scheduled i true }
      : EvalState).scheduled i = true := Function.update_same _ _ _
  have hext2 : StExt st { st with scheduled := Function.update st.scheduled i true } :=
    ⟨hmono, ⟨[], by simp⟩, ⟨[], by simp⟩, ⟨[], by simp⟩⟩
  have hspres2 : ∀ d, SProp g layers st d → SProp g layers
      { st with scheduled := Function.update st.scheduled i true } d :=
    fun d hd he hp => hmono d (hd he hp)
  have hdisjO : ∀ x ∈ outlinksIdx g i, (relAt g x).cyclic = false → x ∉ O := by
    intro x hx _ hxO
    have h1 := (hInv.ofanValid x hxO).2.2.2
    rw [(mem_outlinksIdx.mp hx).2.2, hs] at h1
    cases h1
  by_cases hnoop : (g.op i).is_noop = true
  · rw [if_pos hnoop]
    have hevf : (g.op i).evaluate = false := by
      have := hnoop
      unfold OperationDepsNode.is_noop at this
      simpa using this
    have hcomp2 : completedNode g
        { st with scheduled := Function.update st.scheduled i true } i :=
      fun hev => absurd hev (by simp [hevf])
    have hfuel2 : freeCount g
        { st with scheduled := Function.update st.scheduled i true } < fuel := by
      omega
    have hpostM2 := schedule_children_rels_spec hnf hnt (outlinksIdx g i)
      { st with scheduled := Function.update st.scheduled i true } O (i :: A)
      i hwf hfuel2
      (fun x hx => ⟨(mem_outlinksIdx.mp hx).1, (mem_outlinksIdx.mp hx).2.1,
        (mem_outlinksIdx.mp hx).2.2⟩)
      (outlinksIdx_nodup g i) hdisjO hs2 hcomp2 hip
      (by rw [ncObl_outlinks]; exact hInv2)
    set stF := schedule_children_rels g (schedule_node g layers fuel)
      (outlinksIdx g i)
      { st with scheduled := Function.update st.scheduled i true } with hstF
    have hsF : stF.scheduled i = true := hpostM2.ext.1 i hs2
    refine ⟨⟨?_, hext2.trans hpostM2.ext, ?_, ?_, ?_⟩, fun _ _ => hsF⟩
    · obtain ⟨O', hInv', hsub', hown'⟩ := hpostM2.inv
      refine ⟨O', hInv'.drop_active ?_ (fun hev => absurd hev (by simp [hevf])),
        hsub', hown'⟩
      intro x hx hxi
      rcases hown' x hx with h | h
      · exact absurd hxi (hOsrc x h)
      · exact hxi ▸ h
    · exact fun d hd => hpostM2.spres d (hspres2 d hd)
    · refine le_trans hpostM2.meas ?_
      show st.pool.length + _ ≤ _
      omega
    · intro c hc
      rcases hpostM2.poolNew c hc with h | h
      · exact Or.inl h
      · cases hcs : st.scheduled c
        · exact Or.inr rfl
        · have h' : Function.update st.scheduled i true c = false := h
          rw [hmono c hcs] at h'
          cases h'
  · rw [if_neg hnoop]
    have hev : (g.op i).evaluate = true := by
      unfold OperationDepsNode.is_noop at hnoop
      simpa using hnoop
    have hInvF := hInv2.push_node hev hs2
      (fun k hk => Finset.mem_union_left _ (List.mem_toFinset.mpr hk))
      hdd hiex hip
    have hsF : (taskPoolPush i
        { st with scheduled := Function.update st.scheduled i true }
        : EvalState).scheduled i = true := hs2
    refine ⟨⟨?_, ?_, ?_, ?_, ?_⟩, fun _ _ => hsF⟩
    · refine ⟨ncOutFinset g i ∪ O, hInvF, Finset.subset_union_right, ?_⟩
      intro k hk
      rcases Finset.mem_union.mp hk with h | h
      · refine Or.inr ?_
        show (relAt g k).src ∈ st.pool ++ [i]
        rw [(mem_ncOutFinset.mp h).2.2.1]
        exact List.mem_append_right _ (List.mem_singleton_self _)
      · exact Or.inl h
    · exact hext2.trans ⟨fun c h => h, ⟨[], by simp [taskPoolPush]⟩,
        ⟨[i], rfl⟩, ⟨[i], rfl⟩⟩
    · exact fun d hd he hp => hmono d (hd he hp)
    · have hlen : (taskPoolPush i
          { st with scheduled := Function.update st.scheduled i true }
          : EvalState).pool.length = st.pool.length + 1 := by
        simp [taskPoolPush]
      have hfr : freeCount g (taskPoolPush i
          { st with scheduled := Function.update st.scheduled i true }) + 1 =
          freeCount g st := hfree
      omega
    · intro c hc
      rcases List.mem_append.mp hc with h | h
      · exact Or.inl h
      · rw [List.mem_singleton] at h
        subst h
        exact Or.inr hs

theorem schedule_node_succ_false (g : Depsgraph) (layers fuel i : Nat)
    (st : EvalState) :
    schedule_node g layers (fuel + 1) i false st =
      if elig g layers i then
        if st.num_links_pending i == 0 then
          if !st.scheduled i then
            if (g.op i).is_noop then
              schedule_children_rels g (schedule_node g layers fuel)
                (outlinksIdx g i)
                { st with scheduled := Function.update st.scheduled i true }
            else
              taskPoolPush i
                { st with scheduled := Function.update st.scheduled i true }
          else { st with scheduled := Function.update st.scheduled i true }
        else st
      else st := rfl

theorem schedule_node_succ_true (g : Depsgraph) (layers fuel i : Nat)
    (st : EvalState) :
    schedule_node g layers (fuel + 1) i true st =
      if elig g layers i then
        if Function.update st.num_links_pending i (dec32 (st.num_links_pending i)) i == 0 then
          if !st.scheduled i then
            if (g.op i).is_noop then
              schedule_children_rels g (schedule_node g layers fuel)
                (outlinksIdx g i)
                { st with num_links_pending := Function.update st.num_links_pending i (dec32 (st.num_links_pending i)), scheduled := Function.update st.scheduled i true }
            else
              taskPoolPush i
                { st with num_links_pending := Function.update st.num_links_pending i (dec32 (st.num_links_pending i)), scheduled := Function.update st.scheduled i true }
          else { st with num_links_pending := Function.update st.num_links_pending i (dec32 (st.num_links_pending i)), scheduled := Function.update st.scheduled i true }
        else { st with num_links_pending := Function.update st.num_links_pending i (dec32 (st.num_links_pending i)) }
      else st := rfl

/-- schedule_node meets its specification at every fuel. -/
theorem nodeSpec_all (g : Depsgraph) (layers : Nat) :
    ∀ fuel, NodeSpecFalse g layers fuel ∧ NodeSpecTrue g layers fuel := by
  intro fuel
  induction fuel using Nat.strong_induction_on with
  | _ fuel IH =>
    match fuel with
    | 0 =>
      constructor
      · intro st i O A _ hfuel _
        exact absurd hfuel (Nat.not_lt_zero _)
      · intro st i O A k _ hfuel _ _ _ _ _
        exact absurd hfuel (Nat.not_lt_zero _)
    | fuel + 1 =>
      have hnf : NodeSpecFalse g layers fuel := (IH fuel (Nat.lt_succ_self _)).1
      have hnt : NodeSpecTrue g layers fuel := (IH fuel (Nat.lt_succ_self _)).2
      constructor
      · -- dec_parents = false
        intro st i O A hwf hfuel hInv
        rw [schedule_node_succ_false]
        by_cases hel : elig g layers i = true
        · rw [if_pos hel]
          by_cases hz : st.num_links_pending i = 0
          · rw [if_pos (show (st.num_links_pending i == 0) = true by simpa using hz)]
            by_cases hs : st.scheduled i = true
            · rw [if_neg (show ¬((!st.scheduled i) = true) by simp [hs])]
              have heq : ({ st with scheduled := Function.update st.scheduled i true } : EvalState) = st := by
                apply EvalState.eq_of_fields <;> try rfl
                show Function.update st.scheduled i true = st.scheduled
                rw [← hs]
                exact Function.update_eq_self i st.scheduled
              rw [heq]
              exact ⟨SchedPost.of_self hInv, fun _ _ => hs⟩
            · have hs' : st.scheduled i = false := by
                cases h : st.scheduled i
                · rfl
                · exact absurd h hs
              rw [if_pos (show (!st.scheduled i) = true by simp [hs'])]
              exact sched_claim_branch hnf hnt st i O A hwf hfuel hInv hel hs' hz
          · rw [if_neg (show ¬((st.num_links_pending i == 0) = true) by simpa using hz)]
            exact ⟨SchedPost.of_self hInv, fun _ hp => absurd hp hz⟩
        · rw [if_neg hel]
          exact ⟨SchedPost.of_self hInv, fun he _ => absurd he hel⟩
      · -- dec_parents = true
        intro st i O A k hwf hfuel hInv hkO hdst hcomp hsp
        obtain ⟨hk1, hk2, hkcyc, hksch⟩ :=
          hInv.ofanValid k (Finset.mem_insert_self _ _)
        subst hdst
        rw [schedule_node_succ_true]
        by_cases hel : elig g layers (relAt g k).dst = true
        · rw [if_pos hel]
          by_cases hs : st.scheduled (relAt g k).dst = true
          · -- already claimed child: wrap-around decrement, then no action
            have hf : ∀ c, elig g layers c = true → st.scheduled c = false →
                Function.update st.num_links_pending (relAt g k).dst
                  (dec32 (st.num_links_pending (relAt g k).dst)) c =
                st.num_links_pending c := by
              intro c _ hsc
              apply Function.update_noteq
              rintro rfl
              rw [hs] at hsc
              cases hsc
            have hInv1 := hInv.offer_drop_pend (Finset.mem_insert_self k O)
              (Or.inr hs) (Or.inr hs) hsp hf
            rw [Finset.erase_insert hkO] at hInv1
            have hpost : SchedPost g layers O A st
                { st with num_links_pending := Function.update st.num_links_pending (relAt g k).dst (dec32 (st.num_links_pending (relAt g k).dst)) } ∧
                SProp g layers
                  { st with num_links_pending := Function.update st.num_links_pending (relAt g k).dst (dec32 (st.num_links_pending (relAt g k).dst)) }
                  (relAt g k).dst := by
              refine ⟨⟨⟨O, hInv1, Finset.Subset.refl O, fun x hx => Or.inl hx⟩,
                ⟨fun c h => h, ⟨[], by simp⟩, ⟨[], by simp⟩, ⟨[], by simp⟩⟩,
                ?_, le_refl _, fun c hc => Or.inl hc⟩, fun _ _ => hs⟩
              intro d hd he hp
              by_cases hdi : d = (relAt g k).dst
              · subst hdi
                exact hs
              · apply hd he
                rwa [show ({ st with num_links_pending := Function.update st.num_links_pending (relAt g k).dst (dec32 (st.num_links_pending (relAt g k).dst)) } : EvalState).num_links_pending d = Function.update st.num_links_pending (relAt g k).dst (dec32 (st.num_links_pending (relAt g k).dst)) d from rfl, Function.update_noteq hdi] at hp
            by_cases hz1 : (Function.update st.num_links_pending (relAt g k).dst (dec32 (st.num_links_pending (relAt g k).dst)) (relAt g k).dst == 0) = true
            · rw [if_pos hz1,
                if_neg (show ¬((!st.scheduled (relAt g k).dst) = true) by simp [hs])]
              have heq : ({ st with num_links_pending := Function.update st.num_links_pending (relAt g k).dst (dec32 (st.num_links_pending (relAt g k).dst)), scheduled := Function.update st.scheduled (relAt g k).dst true } : EvalState) =
                  { st with num_links_pending := Function.update st.num_links_pending (relAt g k).dst (dec32 (st.num_links_pending (relAt g k).dst)) } := by
                apply EvalState.eq_of_fields <;> try rfl
                show Function.update st.scheduled (relAt g k).dst true = st.scheduled
                rw [← hs]
                exact Function.update_eq_self _ st.scheduled
              rw [heq]
              exact hpost
            · rw [if_neg hz1]
              exact hpost
          · -- unclaimed child: real decrement through the obligation
            have hs' : st.scheduled (relAt g k).dst = false := by
              cases h : st.scheduled (relAt g k).dst
              · rfl
              · exact absurd h hs
            obtain ⟨hInv1, hpend1⟩ := hInv.offer_dec hwf
              (Finset.mem_insert_self k O) hel hs' hcomp hsp
            rw [Finset.erase_insert hkO] at hInv1 hpend1
            by_cases hz1 : Function.update st.num_links_pending (relAt g k).dst (dec32 (st.num_links_pending (relAt g k).dst)) (relAt g k).dst = 0
            · rw [if_pos (show (Function.update st.num_links_pending (relAt g k).dst (dec32 (st.num_links_pending (relAt g k).dst)) (relAt g k).dst == 0) = true by simpa using hz1),
                if_pos (show (!st.scheduled (relAt g k).dst) = true by simp [hs'])]
              have hfuel1 : freeCount g { st with num_links_pending := Function.update st.num_links_pending (relAt g k).dst (dec32 (st.num_links_pending (relAt g k).dst)) } < fuel + 1 := hfuel
              have hcb := sched_claim_branch hnf hnt
                { st with num_links_pending := Function.update st.num_links_pending (relAt g k).dst (dec32 (st.num_links_pending (relAt g k).dst)) }
                (relAt g k).dst O A hwf hfuel1 hInv1 hel hs' hz1
              refine ⟨⟨hcb.1.inv, ?_, ?_, hcb.1.meas, hcb.1.poolNew⟩, hcb.2⟩
              · refine StExt.trans ⟨fun c h => h, ⟨[], by simp⟩, ⟨[], by simp⟩,
                  ⟨[], by simp⟩⟩ hcb.1.ext
              · intro d hd
                by_cases hdi : d = (relAt g k).dst
                · subst hdi
                  exact hcb.2
                · apply hcb.1.spres
                  intro he hp
                  apply hd he
                  rwa [show ({ st with num_links_pending := Function.update st.num_links_pending (relAt g k).dst (dec32 (st.num_links_pending (relAt g k).dst)) } : EvalState).num_links_pending d = Function.update st.num_links_pending (relAt g k).dst (dec32 (st.num_links_pending (relAt g k).dst)) d from rfl, Function.update_noteq hdi] at hp
            · rw [if_neg (show ¬((Function.update st.num_links_pending (relAt g k).dst (dec32 (st.num_links_pending (relAt g k).dst)) (relAt g k).dst == 0) = true) by simpa using hz1)]
              refine ⟨⟨⟨O, hInv1, Finset.Subset.refl O, fun x hx => Or.inl hx⟩,
                ⟨fun c h => h, ⟨[], by simp⟩, ⟨[], by simp⟩, ⟨[], by simp⟩⟩,
                ?_, le_refl _, fun c hc => Or.inl hc⟩, fun _ hp => absurd hp hz1⟩
              intro d hd he hp
              by_cases hdi : d = (relAt g k).dst
              · subst hdi
                exact absurd hp hz1
              · apply hd he
                rwa [show ({ st with num_links_pending := Function.update st.num_links_pending (relAt g k).dst (dec32 (st.num_links_pending (relAt g k).dst)) } : EvalState).num_links_pending d = Function.update st.num_links_pending (relAt g k).dst (dec32 (st.num_links_pending (relAt g k).dst)) d from rfl, Function.update_noteq hdi] at hp
        · rw [if_neg hel]
          have hInv1 := hInv.offer_drop (Finset.mem_insert_self k O)
            (Or.inl (by
              cases h : elig g layers (relAt g k).dst
              · rfl
              · exact absurd h hel))
            (Or.inl hcomp) hsp
          rw [Finset.erase_insert hkO] at hInv1
          exact ⟨SchedPost.of_self hInv1, fun he _ => absurd he hel⟩

theorem deg_task_run_func_succ (g : Depsgraph) (layers f i : Nat)
    (st : EvalState) :
    deg_task_run_func g layers (f + 1) i st =
      (match outlinksIdx g i with
       | [k] =>
         if ((if (g.op i).evaluate then { st with visited := st.visited ++ [i], executed := st.executed ++ [i] } else { st with visited := st.visited ++ [i] }) : EvalState).scheduled (relAt g k).dst then (if (g.op i).evaluate then { st with visited := st.visited ++ [i], executed := st.executed ++ [i] } else { st with visited := st.visited ++ [i] })
         else if !(elig g layers (relAt g k).dst) then (if (g.op i).evaluate then { st with visited := st.visited ++ [i], executed := st.executed ++ [i] } else { st with visited := st.visited ++ [i] })
         else
           if ((if !(relAt g k).cyclic then { (if (g.op i).evaluate then { st with visited := st.visited ++ [i], executed := st.executed ++ [i] } else { st with visited := st.visited ++ [i] }) with num_links_pending := Function.update ((if (g.op i).evaluate then { st with visited := st.visited ++ [i], executed := st.executed ++ [i] } else { st with visited := st.visited ++ [i] }) : EvalState).num_links_pending (relAt g k).dst (dec32 (((if (g.op i).evaluate then { st with visited := st.visited ++ [i], executed := st.executed ++ [i] } else { st with visited := st.visited ++ [i] }) : EvalState).num_links_pending (relAt g k).dst)) } else (if (g.op i).evaluate then { st with visited := st.visited ++ [i], executed := st.executed ++ [i] } else { st with visited := st.visited ++ [i] })) : EvalState).num_links_pending (relAt g k).dst == 0 then
             if !((if !(relAt g k).cyclic then { (if (g.op i).evaluate then { st with visited := st.visited ++ [i], executed := st.executed ++ [i] } else { st with visited := st.visited ++ [i] }) with num_links_pending := Function.update ((if (g.op i).evaluate then { st with visited := st.visited ++ [i], executed := st.executed ++ [i] } else { st with visited := st.visited ++ [i] }) : EvalState).num_links_pending (relAt g k).dst (dec32 (((if (g.op i).evaluate then { st with visited := st.visited ++ [i], executed := st.executed ++ [i] } else { st with visited := st.visited ++ [i] }) : EvalState).num_links_pending (relAt g k).dst)) } else (if (g.op i).evaluate then { st with visited := st.visited ++ [i], executed := st.executed ++ [i] } else { st with visited := st.visited ++ [i] })) : EvalState).scheduled (relAt g k).dst then
               deg_task_run_func g layers f (relAt g k).dst { (if !(relAt g k).cyclic then { (if (g.op i).evaluate then { st with visited := st.visited ++ [i], executed := st.executed ++ [i] } else { st with visited := st.visited ++ [i] }) with num_links_pending := Function.update ((if (g.op i).evaluate then { st with visited := st.visited ++ [i], executed := st.executed ++ [i] } else { st with visited := st.visited ++ [i] }) : EvalState).num_links_pending (relAt g k).dst (dec32 (((if (g.op i).evaluate then { st with visited := st.visited ++ [i], executed := st.executed ++ [i] } else { st with visited := st.visited ++ [i] }) : EvalState).num_links_pending (relAt g k).dst)) } else (if (g.op i).evaluate then { st with visited := st.visited ++ [i], executed := st.executed ++ [i] } else { st with visited := st.visited ++ [i] })) with scheduled := Function.update ((if !(relAt g k).cyclic then { (if (g.op i).evaluate then { st with visited := st.visited ++ [i], executed := st.executed ++ [i] } else { st with visited := st.visited ++ [i] }) with num_links_pending := Function.update ((if (g.op i).evaluate then { st with visited := st.visited ++ [i], executed := st.executed ++ [i] } else { st with visited := st.visited ++ [i] }) : EvalState).num_links_pending (relAt g k).dst (dec32 (((if (g.op i).evaluate then { st with visited := st.visited ++ [i], executed := st.executed ++ [i] } else { st with visited := st.visited ++ [i] }) : EvalState).num_links_pending (relAt g k).dst)) } else (if (g.op i).evaluate then { st with visited := st.visited ++ [i], executed := st.executed ++ [i] } else { st with visited := st.visited ++ [i] })) : EvalState).scheduled (relAt g k).dst true }
             else { (if !(relAt g k).cyclic then { (if (g.op i).evaluate then { st with visited := st.visited ++ [i], executed := st.executed ++ [i] } else { st with visited := st.visited ++ [i] }) with num_links_pending := Function.update ((if (g.op i).evaluate then { st with visited := st.visited ++ [i], executed := st.executed ++ [i] } else { st with visited := st.visited ++ [i] }) : EvalState).num_links_pending (relAt g k).dst (dec32 (((if (g.op i).evaluate then { st with visited := st.visited ++ [i], executed := st.executed ++ [i] } else { st with visited := st.visited ++ [i] }) : EvalState).num_links_pending (relAt g k).dst)) } else (if (g.op i).evaluate then { st with visited := st.visited ++ [i], executed := st.executed ++ [i] } else { st with visited := st.visited ++ [i] })) with scheduled := Function.update ((if !(relAt g k).cyclic then { (if (g.op i).evaluate then { st with visited := st.visited ++ [i], executed := st.executed ++ [i] } else { st with visited := st.visited ++ [i] }) with num_links_pending := Function.update ((if (g.op i).evaluate then { st with visited := st.visited ++ [i], executed := st.executed ++ [i] } else { st with visited := st.visited ++ [i] }) : EvalState).num_links_pending (relAt g k).dst (dec32 (((if (g.op i).evaluate then { st with visited := st.visited ++ [i], executed := st.executed ++ [i] } else { st with visited := st.visited ++ [i] }) : EvalState).num_links_pending (relAt g k).dst)) } else (if (g.op i).evaluate then { st with visited := st.visited ++ [i], executed := st.executed ++ [i] } else { st with visited := st.visited ++ [i] })) : EvalState).scheduled (relAt g k).dst true }
           else (if !(relAt g k).cyclic then { (if (g.op i).evaluate then { st with visited := st.visited ++ [i], executed := st.executed ++ [i] } else { st with visited := st.visited ++ [i] }) with num_links_pending := Function.update ((if (g.op i).evaluate then { st with visited := st.visited ++ [i], executed := st.executed ++ [i] } else { st with visited := st.visited ++ [i] }) : EvalState).num_links_pending (relAt g k).dst (dec32 (((if (g.op i).evaluate then { st with visited := st.visited ++ [i], executed := st.executed ++ [i] } else { st with visited := st.visited ++ [i] }) : EvalState).num_links_pending (relAt g k).dst)) } else (if (g.op i).evaluate then { st with visited := st.visited ++ [i], executed := st.executed ++ [i] } else { st with visited := st.visited ++ [i] }))
       | _ => schedule_children g layers f i (if (g.op i).evaluate then { st with visited := st.visited ++ [i], executed := st.executed ++ [i] } else { st with visited := st.visited ++ [i] })) := rfl

theorem SchedPost.precomp {g : Depsgraph} {layers : Nat} {O : Finset Nat}
    {A : List Nat} {st st1 st2 : EvalState}
    (h : SchedPost g layers O A st1 st2) (hext : StExt st st1)
    (hspres : ∀ d, SProp g layers st d → SProp g layers st1 d)
    (hmeas : st1.pool.length + freeCount g st1 ≤
      st.pool.length + freeCount g st)
    (hpn : ∀ c ∈ st1.pool, c ∈ st.pool ∨ st.scheduled c = false) :
    SchedPost g layers O A st st2 := by
  refine ⟨h.inv, hext.trans h.ext, fun d hd => h.spres d (hspres d hd),
    le_trans h.meas hmeas, ?_⟩
  intro c hc
  rcases h.poolNew c hc with h' | h'
  · exact hpn c h'
  · cases hcs : st.scheduled c
    · exact Or.inr rfl
    · rw [hext.1 c hcs] at h'
      cases h'

/-- The tail of the chaining fast path: the child's counter has just
been brought up to date; claim it and keep running in the same worker
when it hits zero. -/
theorem run_func_tail_spec {g : Depsgraph} {layers : Nat} (hwf : GraphWF g)
    (f : Nat)
    (IHf : ∀ i st O,
      freeCount g st + 2 ≤ f →
      SchedInv g layers (ncOutFinset g i ∪ O) [i] st →
      (∀ k ∈ ncOutFinset g i, k ∉ O) →
      (∀ k ∈ O, (relAt g k).src ≠ i) →
      st.scheduled i = true → i ∉ st.executed → i ∉ st.pool →
      SchedPost g layers O [] st (deg_task_run_func g layers f i st)) :
    ∀ child stX O,
    freeCount g stX + 1 ≤ f →
    SchedInv g layers O [] stX →
    elig g layers child = true →
    stX.scheduled child = false →
    SchedPost g layers O [] stX
      (if stX.num_links_pending child == 0 then
        if !stX.scheduled child then
          deg_task_run_func g layers f child
            { stX with scheduled := Function.update stX.scheduled child true }
        else { stX with scheduled := Function.update stX.scheduled child true }
      else stX) ∧
    SProp g layers
      (if stX.num_links_pending child == 0 then
        if !stX.scheduled child then
          deg_task_run_func g layers f child
            { stX with scheduled := Function.update stX.scheduled child true }
        else { stX with scheduled := Function.update stX.scheduled child true }
      else stX) child := by
  intro child stX O hfuel hInv helc hs
  by_cases hz : stX.num_links_pending child = 0
  · rw [if_pos (show (stX.num_links_pending child == 0) = true by simpa using hz),
      if_pos (show (!stX.scheduled child) = true by simp [hs])]
    obtain ⟨hInv2, hdd, hchx, hchp, hOsrc2, hfree2⟩ := hInv.claim_node helc hs hz
    have hdisj2 : ∀ x ∈ ncOutFinset g child, x ∉ O := fun x hx hxO =>
      hOsrc2 x hxO (mem_ncOutFinset.mp hx).2.2.1
    have hmono : ∀ c, stX.scheduled c = true →
        Function.update stX.scheduled child true c = true := by
      intro c h
      by_cases hc : c = child <;> simp [Function.update_apply, hc, h]
    have hpost := IHf child
      { stX with scheduled := Function.update stX.scheduled child true } O
      (by omega) hInv2 hdisj2 hOsrc2 (Function.update_same _ _ _) hchx hchp
    refine ⟨hpost.precomp ⟨hmono, ⟨[], by simp⟩, ⟨[], by simp⟩, ⟨[], by simp⟩⟩
      (fun d hd he hp => hmono d (hd he hp))
      (by
        have h1 : ({ stX with scheduled := Function.update stX.scheduled child true } : EvalState).pool.length = stX.pool.length := rfl
        omega)
      (fun c hc => Or.inl hc), fun _ _ => ?_⟩
    exact hpost.ext.1 child (Function.update_same _ _ _)
  · rw [if_neg (show ¬((stX.num_links_pending child == 0) = true) by simpa using hz)]
    exact ⟨SchedPost.of_self hInv, fun _ hp => absurd hp hz⟩

/-- The worker execution loop meets the common postcondition: it
discharges the obligations of the node it runs (and of every node it
chains into), leaving no active worker behind. -/
theorem deg_task_run_func_spec (g : Depsgraph) (layers : Nat)
    (hwf : GraphWF g) :
    ∀ fuel i st O,
    freeCount g st + 2 ≤ fuel →
    SchedInv g layers (ncOutFinset g i ∪ O) [i] st →
    (∀ k ∈ ncOutFinset g i, k ∉ O) →
    (∀ k ∈ O, (relAt g k).src ≠ i) →
    st.scheduled i = true →
    i ∉ st.executed → i ∉ st.pool →
    SchedPost g layers O [] st (deg_task_run_func g layers fuel i st) := by
  intro fuel
  induction fuel with
  | zero =>
    intro i st O hfuel
    exact absurd hfuel (by omega)
  | succ f IHf =>
    intro i st O hfuel hInv hdisj hOsrc hsi hiex hip
    rw [deg_task_run_func_succ]
    have hInvE : SchedInv g layers (ncOutFinset g i ∪ O) [i] (if (g.op i).evaluate then { st with visited := st.visited ++ [i], executed := st.executed ++ [i] } else { st with visited := st.visited ++ [i] }) := by
      by_cases hev : (g.op i).evaluate = true
      · rw [if_pos hev]
        exact (hInv.visited_irrel (st.visited ++ [i])).exec_node hiex hip
      · rw [if_neg hev]
        exact hInv.visited_irrel _
    have hcompi : completedNode g (if (g.op i).evaluate then { st with visited := st.visited ++ [i], executed := st.executed ++ [i] } else { st with visited := st.visited ++ [i] }) i := by
      intro hev
      rw [if_pos hev]
      exact List.mem_append_right _ (List.mem_singleton_self _)
    have hextE : StExt st (if (g.op i).evaluate then { st with visited := st.visited ++ [i], executed := st.executed ++ [i] } else { st with visited := st.visited ++ [i] }) := by
      by_cases hev : (g.op i).evaluate = true
      · rw [if_pos hev]
        exact ⟨fun c h => h, ⟨[i], rfl⟩, ⟨[], by simp⟩, ⟨[], by simp⟩⟩
      · rw [if_neg hev]
        exact ⟨fun c h => h, ⟨[], by simp⟩, ⟨[], by simp⟩, ⟨[], by simp⟩⟩
    have hscheq : ((if (g.op i).evaluate then { st with visited := st.visited ++ [i], executed := st.executed ++ [i] } else { st with visited := st.visited ++ [i] }) : EvalState).scheduled = st.scheduled := by
      by_cases hev : (g.op i).evaluate = true
      · rw [if_pos hev]
      · rw [if_neg hev]
    have hpendeq : ((if (g.op i).evaluate then { st with visited := st.visited ++ [i], executed := st.executed ++ [i] } else { st with visited := st.visited ++ [i] }) : EvalState).num_links_pending = st.num_links_pending := by
      by_cases hev : (g.op i).evaluate = true
      · rw [if_pos hev]
      · rw [if_neg hev]
    have hpooleq : ((if (g.op i).evaluate then { st with visited := st.visited ++ [i], executed := st.executed ++ [i] } else { st with visited := st.visited ++ [i] }) : EvalState).pool = st.pool := by
      by_cases hev : (g.op i).evaluate = true
      · rw [if_pos hev]
      · rw [if_neg hev]
    have hfreeE : freeCount g (if (g.op i).evaluate then { st with visited := st.visited ++ [i], executed := st.executed ++ [i] } else { st with visited := st.visited ++ [i] }) = freeCount g st := by
      unfold freeCount
      rw [hscheq]
    have hspresE : ∀ d, SProp g layers st d → SProp g layers (if (g.op i).evaluate then { st with visited := st.visited ++ [i], executed := st.executed ++ [i] } else { st with visited := st.visited ++ [i] }) d := by
      intro d hd he hp
      rw [hpendeq] at hp
      rw [hscheq]
      exact hd he hp
    have hmeasE : ((if (g.op i).evaluate then { st with visited := st.visited ++ [i], executed := st.executed ++ [i] } else { st with visited := st.visited ++ [i] }) : EvalState).pool.length + freeCount g (if (g.op i).evaluate then { st with visited := st.visited ++ [i], executed := st.executed ++ [i] } else { st with visited := st.visited ++ [i] }) ≤
        st.pool.length + freeCount g st := by
      rw [hpooleq, hfreeE]
    have hpnE : ∀ c ∈ ((if (g.op i).evaluate then { st with visited := st.visited ++ [i], executed := st.executed ++ [i] } else { st with visited := st.visited ++ [i] }) : EvalState).pool,
        c ∈ st.pool ∨ st.scheduled c = false := by
      intro c hc
      rw [hpooleq] at hc
      exact Or.inl hc
    have hsiE : ((if (g.op i).evaluate then { st with visited := st.visited ++ [i], executed := st.executed ++ [i] } else { st with visited := st.visited ++ [i] }) : EvalState).scheduled i = true := by
      rw [hscheq]; exact hsi
    have hipE : i ∉ ((if (g.op i).evaluate then { st with visited := st.visited ++ [i], executed := st.executed ++ [i] } else { st with visited := st.visited ++ [i] }) : EvalState).pool := by
      rw [hpooleq]; exact hip
    have hfanout : SchedPost g layers O [] st
        (schedule_children g layers f i (if (g.op i).evaluate then { st with visited := st.visited ++ [i], executed := st.executed ++ [i] } else { st with visited := st.visited ++ [i] })) := by
      have hM2 := schedule_children_rels_spec (nodeSpec_all g layers f).1
        (nodeSpec_all g layers f).2 (outlinksIdx g i) (if (g.op i).evaluate then { st with visited := st.visited ++ [i], executed := st.executed ++ [i] } else { st with visited := st.visited ++ [i] }) O [i] i hwf
        (by rw [hfreeE]; omega)
        (fun x hx => ⟨(mem_outlinksIdx.mp hx).1, (mem_outlinksIdx.mp hx).2.1,
          (mem_outlinksIdx.mp hx).2.2⟩)
        (outlinksIdx_nodup g i)
        (fun x hx hc => hdisj x (mem_ncOutFinset.mpr
          ⟨(mem_outlinksIdx.mp hx).1, (mem_outlinksIdx.mp hx).2.1,
           (mem_outlinksIdx.mp hx).2.2, hc⟩))
        hsiE hcompi hipE
        (by rw [ncObl_outlinks]; exact hInvE)
      obtain ⟨O2, hI2, hsub2, hown2⟩ := hM2.inv
      have hIfin := hI2.drop_active
        (fun x hx heq => by
          rcases hown2 x hx with h | h
          · exact absurd heq (hOsrc x h)
          · exact heq ▸ h)
        (fun hev => Or.inl (by
          obtain ⟨t, ht⟩ := hM2.ext.2.1
          rw [ht]
          exact List.mem_append_left _ (hcompi hev)))
      exact SchedPost.precomp
        ⟨⟨O2, hIfin, hsub2, hown2⟩, hM2.ext, hM2.spres, hM2.meas, hM2.poolNew⟩
        hextE hspresE hmeasE hpnE
    cases houts : outlinksIdx g i with
    | nil => exact hfanout
    | cons k rest =>
      cases rest with
      | cons r rs => exact hfanout
      | nil =>
        show SchedPost g layers O [] st
          (if ((if (g.op i).evaluate then { st with visited := st.visited ++ [i], executed := st.executed ++ [i] } else { st with visited := st.visited ++ [i] }) : EvalState).scheduled (relAt g k).dst then (if (g.op i).evaluate then { st with visited := st.visited ++ [i], executed := st.executed ++ [i] } else { st with visited := st.visited ++ [i] })
           else if !(elig g layers (relAt g k).dst) then (if (g.op i).evaluate then { st with visited := st.visited ++ [i], executed := st.executed ++ [i] } else { st with visited := st.visited ++ [i] })
           else
             if (if !(relAt g k).cyclic then { (if (g.op i).evaluate then { st with visited := st.visited ++ [i], executed := st.executed ++ [i] } else { st with visited := st.visited ++ [i] }) with num_links_pending := Function.update ((if (g.op i).evaluate then { st with visited := st.visited ++ [i], executed := st.executed ++ [i] } else { st with visited := st.visited ++ [i] }) : EvalState).num_links_pending (relAt g k).dst (dec32 (((if (g.op i).evaluate then { st with visited := st.visited ++ [i], executed := st.executed ++ [i] } else { st with visited := st.visited ++ [i] }) : EvalState).num_links_pending (relAt g k).dst)) } else (if (g.op i).evaluate then { st with visited := st.visited ++ [i], executed := st.executed ++ [i] } else { st with visited := st.visited ++ [i] }) : EvalState).num_links_pending (relAt g k).dst == 0 then
               if !(if !(relAt g k).cyclic then { (if (g.op i).evaluate then { st with visited := st.visited ++ [i], executed := st.executed ++ [i] } else { st with visited := st.visited ++ [i] }) with num_links_pending := Function.update ((if (g.op i).evaluate then { st with visited := st.visited ++ [i], executed := st.executed ++ [i] } else { st with visited := st.visited ++ [i] }) : EvalState).num_links_pending (relAt g k).dst (dec32 (((if (g.op i).evaluate then { st with visited := st.visited ++ [i], executed := st.executed ++ [i] } else { st with visited := st.visited ++ [i] }) : EvalState).num_links_pending (relAt g k).dst)) } else (if (g.op i).evaluate then { st with visited := st.visited ++ [i], executed := st.executed ++ [i] } else { st with visited := st.visited ++ [i] }) : EvalState).scheduled (relAt g k).dst then
                 deg_task_run_func g layers f (relAt g k).dst { (if !(relAt g k).cyclic then { (if (g.op i).evaluate then { st with visited := st.visited ++ [i], executed := st.executed ++ [i] } else { st with visited := st.visited ++ [i] }) with num_links_pending := Function.update ((if (g.op i).evaluate then { st with visited := st.visited ++ [i], executed := st.executed ++ [i] } else { st with visited := st.visited ++ [i] }) : EvalState).num_links_pending (relAt g k).dst (dec32 (((if (g.op i).evaluate then { st with visited := st.visited ++ [i], executed := st.executed ++ [i] } else { st with visited := st.visited ++ [i] }) : EvalState).num_links_pending (relAt g k).dst)) } else (if (g.op i).evaluate then { st with visited := st.visited ++ [i], executed := st.executed ++ [i] } else { st with visited := st.visited ++ [i] })) with scheduled := Function.update (if !(relAt g k).cyclic then { (if (g.op i).evaluate then { st with visited := st.visited ++ [i], executed := st.executed ++ [i] } else { st with visited := st.visited ++ [i] }) with num_links_pending := Function.update ((if (g.op i).evaluate then { st with visited := st.visited ++ [i], executed := st.executed ++ [i] } else { st with visited := st.visited ++ [i] }) : EvalState).num_links_pending (relAt g k).dst (dec32 (((if (g.op i).evaluate then { st with visited := st.visited ++ [i], executed := st.executed ++ [i] } else { st with visited := st.visited ++ [i] }) : EvalState).num_links_pending (relAt g k).dst)) } else (if (g.op i).evaluate then { st with visited := st.visited ++ [i], executed := st.executed ++ [i] } else { st with visited := st.visited ++ [i] }) : EvalState).scheduled (relAt g k).dst true }
               else { (if !(relAt g k).cyclic then { (if (g.op i).evaluate then { st with visited := st.visited ++ [i], executed := st.executed ++ [i] } else { st with visited := st.visited ++ [i] }) with num_links_pending := Function.update ((if (g.op i).evaluate then { st with visited := st.visited ++ [i], executed := st.executed ++ [i] } else { st with visited := st.visited ++ [i] }) : EvalState).num_links_pending (relAt g k).dst (dec32 (((if (g.op i).evaluate then { st with visited := st.visited ++ [i], executed := st.executed ++ [i] } else { st with visited := st.visited ++ [i] }) : EvalState).num_links_pending (relAt g k).dst)) } else (if (g.op i).evaluate then { st with visited := st.visited ++ [i], executed := st.executed ++ [i] } else { st with visited := st.visited ++ [i] })) with scheduled := Function.update (if !(relAt g k).cyclic then { (if (g.op i).evaluate then { st with visited := st.visited ++ [i], executed := st.executed ++ [i] } else { st with visited := st.visited ++ [i] }) with num_links_pending := Function.update ((if (g.op i).evaluate then { st with visited := st.visited ++ [i], executed := st.executed ++ [i] } else { st with visited := st.visited ++ [i] }) : EvalState).num_links_pending (relAt g k).dst (dec32 (((if (g.op i).evaluate then { st with visited := st.visited ++ [i], executed := st.executed ++ [i] } else { st with visited := st.visited ++ [i] }) : EvalState).num_links_pending (relAt g k).dst)) } else (if (g.op i).evaluate then { st with visited := st.visited ++ [i], executed := st.executed ++ [i] } else { st with visited := st.visited ++ [i] }) : EvalState).scheduled (relAt g k).dst true }
             else (if !(relAt g k).cyclic then { (if (g.op i).evaluate then { st with visited := st.visited ++ [i], executed := st.executed ++ [i] } else { st with visited := st.visited ++ [i] }) with num_links_pending := Function.update ((if (g.op i).evaluate then { st with visited := st.visited ++ [i], executed := st.executed ++ [i] } else { st with visited := st.visited ++ [i] }) : EvalState).num_links_pending (relAt g k).dst (dec32 (((if (g.op i).evaluate then { st with visited := st.visited ++ [i], executed := st.executed ++ [i] } else { st with visited := st.visited ++ [i] }) : EvalState).num_links_pending (relAt g k).dst)) } else (if (g.op i).evaluate then { st with visited := st.visited ++ [i], executed := st.executed ++ [i] } else { st with visited := st.visited ++ [i] })))
        set ste : EvalState := (if (g.op i).evaluate then { st with visited := st.visited ++ [i], executed := st.executed ++ [i] } else { st with visited := st.visited ++ [i] }) with hste
        have hkmem : k ∈ outlinksIdx g i := by
          rw [houts]
          exact List.mem_singleton_self k
        obtain ⟨hk1, hk2, hk3⟩ := mem_outlinksIdx.mp hkmem
        have hfin : SchedInv g layers O [] ste →
            SchedPost g layers O [] st ste := fun hI =>
          SchedPost.precomp (SchedPost.of_self hI) hextE hspresE hmeasE hpnE
        have hdropI : SchedInv g layers O [i] ste →
            SchedInv g layers O [] ste := fun hI =>
          hI.drop_active (fun x hx heq => absurd heq (hOsrc x hx))
            (fun hev => Or.inl (hcompi hev))
        by_cases hs : ste.scheduled (relAt g k).dst = true
        · rw [if_pos hs]
          apply hfin
          apply hdropI
          by_cases hc : (relAt g k).cyclic = true
          · have hempty : ncOutFinset g i = ∅ := by
              rw [← ncObl_outlinks, houts, ncObl_cons_cyc hc, ncObl_nil]
            rwa [hempty, Finset.empty_union] at hInvE
          · have hc' : (relAt g k).cyclic = false := by
              cases h : (relAt g k).cyclic
              · rfl
              · exact absurd h hc
            have hsingle : ncOutFinset g i ∪ O = insert k O := by
              rw [← ncObl_outlinks, houts, ncObl_cons_nc hc', ncObl_nil]
              ext x
              simp
            rw [hsingle] at hInvE
            have hkO : k ∉ O := hdisj k (by
              rw [← ncObl_outlinks, houts, ncObl_cons_nc hc', ncObl_nil]
              simp)
            have hd := hInvE.offer_drop (Finset.mem_insert_self k O)
              (Or.inr hs) (Or.inr hs) (by rw [hk3]; exact hipE)
            rwa [Finset.erase_insert hkO] at hd
        · rw [if_neg hs]
          have hs' : ste.scheduled (relAt g k).dst = false := by
            cases h : ste.scheduled (relAt g k).dst
            · rfl
            · exact absurd h hs
          by_cases helc : elig g layers (relAt g k).dst = true
          · rw [if_neg (show ¬((!(elig g layers (relAt g k).dst)) = true) by simp [helc])]
            by_cases hc : (relAt g k).cyclic = true
            · rw [if_neg (show ¬((!(relAt g k).cyclic) = true) by simp [hc])]
              have hempty : ncOutFinset g i = ∅ := by
                rw [← ncObl_outlinks, houts, ncObl_cons_cyc hc, ncObl_nil]
              have hIO : SchedInv g layers O [] ste := by
                apply hdropI
                rwa [hempty, Finset.empty_union] at hInvE
              have htail := run_func_tail_spec hwf f IHf (relAt g k).dst
                ste O (by rw [hfreeE]; omega) hIO helc hs'
              exact htail.1.precomp hextE hspresE hmeasE hpnE
            · have hc' : (relAt g k).cyclic = false := by
                cases h : (relAt g k).cyclic
                · rfl
                · exact absurd h hc
              rw [if_pos (show (!(relAt g k).cyclic) = true by simp [hc'])]
              have hsingle : ncOutFinset g i ∪ O = insert k O := by
                rw [← ncObl_outlinks, houts, ncObl_cons_nc hc', ncObl_nil]
                ext x
                simp
              have hkO : k ∉ O := hdisj k (by
                rw [← ncObl_outlinks, houts, ncObl_cons_nc hc', ncObl_nil]
                simp)
              rw [hsingle] at hInvE
              obtain ⟨hInv1, hpend1⟩ := hInvE.offer_dec hwf
                (Finset.mem_insert_self k O) helc hs'
                (by rw [hk3]; exact hcompi) (by rw [hk3]; exact hipE)
              rw [Finset.erase_insert hkO] at hInv1
              set st1 : EvalState := { ste with num_links_pending := Function.update ste.num_links_pending (relAt g k).dst (dec32 (ste.num_links_pending (relAt g k).dst)) } with hst1
              have hIO1 : SchedInv g layers O [] st1 :=
                hInv1.drop_active (fun x hx heq => absurd heq (hOsrc x hx))
                  (fun hev => Or.inl (hcompi hev))
              have hfree1 : freeCount g st1 = freeCount g st := by
                rw [show freeCount g st1 = freeCount g ste from rfl, hfreeE]
              have hs1 : st1.scheduled (relAt g k).dst = false := hs'
              have htail := run_func_tail_spec hwf f IHf (relAt g k).dst
                st1 O (by omega) hIO1 helc hs1
              have hext1 : StExt st st1 :=
                hextE.trans ⟨fun c h => h, ⟨[], by simp [hst1]⟩,
                  ⟨[], by simp [hst1]⟩, ⟨[], by simp [hst1]⟩⟩
              refine ⟨htail.1.inv, hext1.trans htail.1.ext, ?_, ?_, ?_⟩
              · intro d hd
                by_cases hdc : d = (relAt g k).dst
                · subst hdc
                  exact htail.2
                · refine htail.1.spres d ?_
                  intro he hp
                  have hp' : Function.update ste.num_links_pending (relAt g k).dst (dec32 (ste.num_links_pending (relAt g k).dst)) d = 0 := hp
                  rw [Function.update_noteq hdc] at hp'
                  have hp2 : st.num_links_pending d = 0 := by
                    rw [← congrFun hpendeq d]
                    exact hp'
                  have hgoal : st.scheduled d = true := hd he hp2
                  show st1.scheduled d = true
                  rw [show st1.scheduled = ste.scheduled from rfl, hscheq]
                  exact hgoal
              · refine le_trans htail.1.meas ?_
                have h1 : st1.pool = st.pool := by
                  rw [show st1.pool = ste.pool from rfl, hpooleq]
                rw [h1, hfree1]
              · intro c hc2
                rcases htail.1.poolNew c hc2 with h | h
                · rw [show st1.pool = ste.pool from rfl, hpooleq] at h
                  exact Or.inl h
                · rw [show st1.scheduled = ste.scheduled from rfl, hscheq] at h
                  exact Or.inr h
          · have helc' : elig g layers (relAt g k).dst = false := by
              cases h : elig g layers (relAt g k).dst
              · rfl
              · exact absurd h helc
            rw [if_pos (show (!(elig g layers (relAt g k).dst)) = true by simp [helc'])]
            apply hfin
            apply hdropI
            by_cases hc : (relAt g k).cyclic = true
            · have hempty : ncOutFinset g i = ∅ := by
                rw [← ncObl_outlinks, houts, ncObl_cons_cyc hc, ncObl_nil]
              rwa [hempty, Finset.empty_union] at hInvE
            · have hc' : (relAt g k).cyclic = false := by
                cases h : (relAt g k).cyclic
                · rfl
                · exact absurd h hc
              have hsingle : ncOutFinset g i ∪ O = insert k O := by
                rw [← ncObl_outlinks, houts, ncObl_cons_nc hc', ncObl_nil]
                ext x
                simp
              rw [hsingle] at hInvE
              have hkO : k ∉ O := hdisj k (by
                rw [← ncObl_outlinks, houts, ncObl_cons_nc hc', ncObl_nil]
                simp)
              have hd := hInvE.offer_drop (Finset.mem_insert_self k O)
                (Or.inl helc') (Or.inl (by rw [hk3]; exact hcompi))
                (by rw [hk3]; exact hipE)
              rwa [Finset.erase_insert hkO] at hd

/-- Popping the front task of the queue makes it the active worker. -/
theorem SchedInv.pop_task {g : Depsgraph} {layers : Nat} {O : Finset Nat}
    {st : EvalState} {i : Nat} {rest : List Nat}
    (hInv : SchedInv g layers O [] st) (hpool : st.pool = i :: rest) :
    SchedInv g layers O [i] { st with pool := rest } := by
  have hsubl : (st.executed ++ rest).Sublist (st.executed ++ st.pool) := by
    rw [hpool]
    exact (List.sublist_cons_self i rest).append_left st.executed
  refine ⟨hInv.pendAcc, hInv.ofanValid, ?_, hInv.discharged, hInv.schedElig,
    ?_, hsubl.nodup hInv.nodups, ?_, ?_, ?_, ?_, hInv.traceOrder, hInv.subWork⟩
  · intro x hx
    rcases hInv.ofanOwner x hx with h | h
    · rw [hpool] at h
      rcases List.mem_cons.mp h with h' | h'
      · exact Or.inr (by rw [h']; exact List.mem_singleton_self _)
      · exact Or.inl h'
    · cases h
  · intro c hc hev
    rcases hInv.schedRun c hc hev with h | h | h
    · exact Or.inl h
    · rw [hpool] at h
      rcases List.mem_cons.mp h with h' | h'
      · exact Or.inr (Or.inr (by rw [h']; exact List.mem_singleton_self _))
      · exact Or.inr (Or.inl h')
    · cases h
  · intro c hc
    rcases hc with h | h | h
    · exact hInv.memSched c (Or.inl h)
    · exact hInv.memSched c (Or.inr (Or.inl (by rw [hpool]; exact List.mem_cons_of_mem _ h)))
    · rw [List.mem_singleton] at h
      exact hInv.memSched c (Or.inr (Or.inl (by rw [hpool, h]; exact List.mem_cons_self _ _)))
  · intro c hc
    exact hInv.poolWork c (by rw [hpool]; exact List.mem_cons_of_mem _ hc)
  · intro c hc x hx
    exact hInv.poolOblig c (by rw [hpool]; exact List.mem_cons_of_mem _ hc) x hx
  · intro c hc
    rcases hc with h | h
    · exact hInv.readyDeps c (Or.inl (by rw [hpool]; exact List.mem_cons_of_mem _ h))
    · rw [List.mem_singleton] at h
      exact hInv.readyDeps c (Or.inl (by rw [hpool, h]; exact List.mem_cons_self _ _))

theorem run_pool_succ (g : Depsgraph) (layers tfuel fuel : Nat)
    (st : EvalState) :
    run_pool g layers tfuel (fuel + 1) st =
      (match st.pool with
       | [] => st
       | i :: rest =>
         run_pool g layers tfuel fuel
           (deg_task_run_func g layers tfuel i { st with pool := rest })) := rfl

/-- Draining the pool with sufficient fuel: afterwards the queue is
empty and the invariant holds with no active worker. -/
theorem run_pool_spec (g : Depsgraph) (layers : Nat) (hwf : GraphWF g)
    (tfuel : Nat) (htf : g.operations.length + 2 ≤ tfuel) :
    ∀ fuel st O,
    st.pool.length + freeCount g st < fuel →
    SchedInv g layers O [] st →
    (run_pool g layers tfuel fuel st).pool = [] ∧
    (∃ O', SchedInv g layers O' [] (run_pool g layers tfuel fuel st)) ∧
    (∀ c, st.scheduled c = true →
      (run_pool g layers tfuel fuel st).scheduled c = true) ∧
    (∃ t, (run_pool g layers tfuel fuel st).executed = st.executed ++ t) ∧
    (∀ d, SProp g layers st d →
      SProp g layers (run_pool g layers tfuel fuel st) d) := by
  intro fuel
  induction fuel with
  | zero =>
    intro st O hfuel
    exact absurd hfuel (by omega)
  | succ fuel IH =>
    intro st O hfuel hInv
    rw [run_pool_succ]
    cases hpool : st.pool with
    | nil =>
      exact ⟨hpool, ⟨O, hInv⟩, fun c h => h, ⟨[], by simp⟩, fun d h => h⟩
    | cons i rest =>
      have hiPool : i ∈ st.pool := by
        rw [hpool]
        exact List.mem_cons_self _ _
      have hsi : st.scheduled i = true := hInv.memSched i (Or.inr (Or.inl hiPool))
      have hInvM := hInv.pop_task hpool
      have hOsub : ncOutFinset g i ⊆ O := by
        intro x hx
        exact hInv.poolOblig i hiPool x (List.mem_toFinset.mp hx)
      have hsplit : ncOutFinset g i ∪ (O \ ncOutFinset g i) = O :=
        Finset.union_sdiff_of_subset hOsub
      have hInvM' : SchedInv g layers
          (ncOutFinset g i ∪ (O \ ncOutFinset g i)) [i]
          { st with pool := rest } := by
        rw [hsplit]
        exact hInvM
      have hdisjM : ∀ x ∈ ncOutFinset g i, x ∉ O \ ncOutFinset g i :=
        fun x hx hmem => (Finset.mem_sdiff.mp hmem).2 hx
      have hOsrcM : ∀ x ∈ O \ ncOutFinset g i, (relAt g x).src ≠ i := by
        intro x hx heq
        obtain ⟨hxO, hxn⟩ := Finset.mem_sdiff.mp hx
        obtain ⟨h1, h2, h3, _⟩ := hInv.ofanValid x hxO
        exact hxn (mem_ncOutFinset.mpr ⟨h1, h2, heq, h3⟩)
      obtain ⟨hne, hnp, hdisjep⟩ := List.nodup_append.mp hInv.nodups
      have hiex : i ∉ st.executed := fun h => hdisjep h hiPool
      have hirest : i ∉ rest := by
        rw [hpool] at hnp
        exact (List.nodup_cons.mp hnp).1
      have hfree : freeCount g { st with pool := rest } + 2 ≤ tfuel := by
        have h1 : freeCount g { st with pool := rest } = freeCount g st := rfl
        have h2 := freeCount_le g st
        omega
      have hM3 := deg_task_run_func_spec g layers hwf tfuel i
        { st with pool := rest } (O \ ncOutFinset g i) hfree hInvM' hdisjM
        hOsrcM hsi hiex hirest
      obtain ⟨O3, hI3, _, _⟩ := hM3.inv
      have hfuel3 : (deg_task_run_func g layers tfuel i
          { st with pool := rest }).pool.length +
          freeCount g (deg_task_run_func g layers tfuel i
            { st with pool := rest }) < fuel := by
        have hm := hM3.meas
        have h1 : ({ st with pool := rest } : EvalState).pool.length = rest.length := rfl
        have h2 : freeCount g { st with pool := rest } = freeCount g st := rfl
        have h3 : st.pool.length = rest.length + 1 := by
          rw [hpool]
          rfl
        omega
      obtain ⟨hp4, hI4, hmono4, hex4, hspres4⟩ :=
        IH (deg_task_run_func g layers tfuel i { st with pool := rest })
          O3 hfuel3 hI3
      refine ⟨hp4, hI4, ?_, ?_, ?_⟩
      · intro c hc
        exact hmono4 c (hM3.ext.1 c hc)
      · obtain ⟨t1, ht1⟩ := hM3.ext.2.1
        obtain ⟨t2, ht2⟩ := hex4
        exact ⟨t1 ++ t2, by rw [ht2, ht1]; simp⟩
      · intro d hd
        exact hspres4 d (hM3.spres d hd)

/-- Field-level characterization of the readiness pre-pass fold. -/
theorem calc_pending_fold (g : Depsgraph) (layers : Nat) :
    ∀ (l : List Nat) (st : EvalState),
    (∀ c ∈ l,
      (l.foldl (fun st i => calculate_pending_func g layers i st) st).num_links_pending c = pendingCount g layers c ∧
      (l.foldl (fun st i => calculate_pending_func g layers i st) st).scheduled c = false) ∧
    (∀ c, c ∉ l →
      (l.foldl (fun st i => calculate_pending_func g layers i st) st).num_links_pending c = st.num_links_pending c ∧
      (l.foldl (fun st i => calculate_pending_func g layers i st) st).scheduled c = st.scheduled c) ∧
    (l.foldl (fun st i => calculate_pending_func g layers i st) st).done = st.done ∧
    (l.foldl (fun st i => calculate_pending_func g layers i st) st).pool = st.pool ∧
    (l.foldl (fun st i => calculate_pending_func g layers i st) st).executed = st.executed ∧
    (l.foldl (fun st i => calculate_pending_func g layers i st) st).visited = st.visited ∧
    (l.foldl (fun st i => calculate_pending_func g layers i st) st).submitted = st.submitted := by
  intro l
  induction l with
  | nil =>
    intro st
    exact ⟨fun c hc => absurd hc (List.not_mem_nil c),
      fun c _ => ⟨rfl, rfl⟩, rfl, rfl, rfl, rfl, rfl⟩
  | cons i l ih =>
    intro st
    simp only [List.foldl_cons]
    obtain ⟨h1, h2, h3, h4, h5, h6, h7⟩ := ih (calculate_pending_func g layers i st)
    refine ⟨?_, ?_, h3, h4, h5, h6, h7⟩
    · intro c hc
      rcases List.mem_cons.mp hc with rfl | hcl
      · by_cases hci : c ∈ l
        · exact h1 c hci
        · obtain ⟨hp, hsc⟩ := h2 c hci
          rw [hp, hsc]
          constructor
          · exact Function.update_same _ _ _
          · exact Function.update_same _ _ _
      · exact h1 c hcl
    · intro c hc
      have hci : c ≠ i := fun h => hc (h ▸ List.mem_cons_self _ _)
      have hcl : c ∉ l := fun h => hc (List.mem_cons_of_mem _ h)
      obtain ⟨hp, hsc⟩ := h2 c hcl
      rw [hp, hsc]
      exact ⟨Function.update_noteq hci _ _, Function.update_noteq hci _ _⟩

/-- The tag-clearing loop touches only the done markers. -/
theorem clear_done_fields (g : Depsgraph) (st : EvalState) :
    (clear_done g st).num_links_pending = st.num_links_pending ∧
    (clear_done g st).scheduled = st.scheduled ∧
    (clear_done g st).pool = st.pool ∧
    (clear_done g st).executed = st.executed ∧
    (clear_done g st).visited = st.visited ∧
    (clear_done g st).submitted = st.submitted := by
  unfold clear_done
  generalize List.range g.operations.length = l
  induction l generalizing st with
  | nil => exact ⟨rfl, rfl, rfl, rfl, rfl, rfl⟩
  | cons i l ih =>
    obtain ⟨h1, h2, h3, h4, h5, h6⟩ :=
      ih { st with done := Function.update st.done i 0 }
    exact ⟨h1, h2, h3, h4, h5, h6⟩

/-- After the pre-pass from a fresh state the scheduling invariant
holds with no obligations and no active workers. -/
theorem prepass_Inv (g : Depsgraph) (layers : Nat) :
    SchedInv g layers ∅ []
      (clear_done g (calculate_pending_parents g layers initState)) := by
  classical
  obtain ⟨hd1, hd2, hd3, hd4, hd5, hd6⟩ :=
    clear_done_fields g (calculate_pending_parents g layers initState)
  obtain ⟨hc1, hc2, _, hc4, hc5, _, hc7⟩ :=
    calc_pending_fold g layers (List.range g.operations.length) initState
  have hsched : ∀ c,
      (clear_done g (calculate_pending_parents g layers initState)).scheduled c = false := by
    intro c
    rw [hd2]
    by_cases hc : c ∈ List.range g.operations.length
    · exact (hc1 c hc).2
    · exact (hc2 c hc).2
  have hexec : (clear_done g (calculate_pending_parents g layers initState)).executed = [] := by
    rw [hd4]
    rw [show (calculate_pending_parents g layers initState).executed = initState.executed from hc5]
    rfl
  have hpool : (clear_done g (calculate_pending_parents g layers initState)).pool = [] := by
    rw [hd3]
    rw [show (calculate_pending_parents g layers initState).pool = initState.pool from hc4]
    rfl
  have hsub : (clear_done g (calculate_pending_parents g layers initState)).submitted = [] := by
    rw [hd6]
    rw [show (calculate_pending_parents g layers initState).submitted = initState.submitted from hc7]
    rfl
  refine ⟨?_, ?_, ?_, ?_, ?_, ?_, ?_, ?_, ?_, ?_, ?_, ?_, ?_⟩
  · intro c helc _
    have hcn : c < g.operations.length := elig_lt helc
    have hp1 : (calculate_pending_parents g layers initState).num_links_pending c
        = pendingCount g layers c := (hc1 c (List.mem_range.mpr hcn)).1
    rw [hd1, hp1]
    unfold pendingCount countStill
    rw [if_pos helc]
    refine (congrArg List.length ?_).symm
    rw [List.filter_eq_self]
    intro k _
    simp [hsched]
  · intro k hk
    cases hk
  · intro k hk
    cases hk
  · intro k _ _ _ hks
    rw [hsched] at hks
    cases hks
  · intro c hc
    rw [hsched] at hc
    cases hc
  · intro c hc
    rw [hsched] at hc
    cases hc
  · rw [hexec, hpool]
    exact List.nodup_nil
  · intro c hc
    rcases hc with h | h | h
    · rw [hexec] at h
      cases h
    · rw [hpool] at h
      cases h
    · cases h
  · intro c hc
    rw [hpool] at hc
    cases hc
  · intro c hc
    rw [hpool] at hc
    cases hc
  · intro c hc
    rcases hc with h | h
    · rw [hpool] at h
      cases h
    · cases h
  · intro nn c hget
    rw [hexec] at hget
    cases hget
  · intro c hc
    rw [hsub] at hc
    cases hc

/-- Seeding the scheduler over a list of nodes: the fold of
schedule_node with dec_parents false preserves the scheduling
postcondition and establishes node stability for every seeded node. -/
theorem seed_fold_spec (g : Depsgraph) (layers : Nat) (hwf : GraphWF g)
    (fuel : Nat) (hfl : g.operations.length < fuel) :
    ∀ (l : List Nat) (st : EvalState) (O : Finset Nat),
    SchedInv g layers O [] st →
    SchedPost g layers O [] st
      (l.foldl (fun st i => schedule_node g layers fuel i false st) st) ∧
    (∀ i ∈ l, SProp g layers
      (l.foldl (fun st i => schedule_node g layers fuel i false st) st) i) := by
  intro l
  induction l with
  | nil =>
    intro st O hInv
    exact ⟨SchedPost.of_self hInv, fun i hi => absurd hi (List.not_mem_nil i)⟩
  | cons i l ih =>
    intro st O hInv
    simp only [List.foldl_cons]
    have hfree : freeCount g st < fuel :=
      Nat.lt_of_le_of_lt (freeCount_le g st) hfl
    obtain ⟨hpost1, hsp1⟩ :=
      (nodeSpec_all g layers fuel).1 st i O [] hwf hfree hInv
    obtain ⟨O1, hInv1, hO1sub, hO1own⟩ := hpost1.inv
    obtain ⟨hpost2, hsp2⟩ := ih (schedule_node g layers fuel i false st) O1 hInv1
    constructor
    · obtain ⟨O2, hInv2, hO2sub, hO2own⟩ := hpost2.inv
      refine ⟨⟨O2, hInv2, Finset.Subset.trans hO1sub hO2sub, ?_⟩,
        hpost1.ext.trans hpost2.ext,
        fun d hd => hpost2.spres d (hpost1.spres d hd),
        le_trans hpost2.meas hpost1.meas, ?_⟩
      · intro k hk
        rcases hO2own k hk with hk1 | hkp
        · rcases hO1own k hk1 with hk0 | hks
          · exact Or.inl hk0
          · obtain ⟨t, ht⟩ := hpost2.ext.2.2.1
            exact Or.inr (by rw [ht]; exact List.mem_append_left _ hks)
        · exact Or.inr hkp
      · intro c hc
        rcases hpost2.poolNew c hc with hc1 | hcf
        · rcases hpost1.poolNew c hc1 with hc0 | hcf0
          · exact Or.inl hc0
          · exact Or.inr hcf0
        · refine Or.inr ?_
          cases hst : st.scheduled c with
          | false => rfl
          | true => rw [hpost1.ext.1 c hst] at hcf; cases hcf
    · intro j hj
      rcases List.mem_cons.mp hj with rfl | hjl
      · exact hpost2.spres j hsp1
      · exact hsp2 j hjl

/-- A full pass with a nonempty tag set and a present time source
unfolds to the pre-pass / seed / drain composition, with the context
stamped with the time source's frame. -/
theorem DEG_refresh_ex_run (eval_ctx : EvaluationContext) (g : Depsgraph)
    (layers : Nat) (ts : TimeSourceDepsNode)
    (htags : g.entry_tags ≠ []) (hts : g.time_source = some ts) :
    DEG_evaluate_on_refresh_ex eval_ctx g layers initState =
      some ({ eval_ctx with ctime := ts.cfra },
        { g with entry_tags := [] }, finalState g layers) := by
  unfold DEG_evaluate_on_refresh_ex
  rw [if_neg (by simpa using htags), hts]
  rfl

/-- The pre-pass leaves the pool empty. -/
theorem prepass_pool (g : Depsgraph) (layers : Nat) :
    (clear_done g (calculate_pending_parents g layers initState)).pool = [] := by
  obtain ⟨_, _, hd3, _, _, _⟩ :=
    clear_done_fields g (calculate_pending_parents g layers initState)
  obtain ⟨_, _, _, hc4, _, _, _⟩ :=
    calc_pending_fold g layers (List.range g.operations.length) initState
  rw [hd3]
  exact hc4

/-- The composed pass state satisfies the scheduling invariant with no
outstanding obligations, an empty queue, and node stability for every
operation node. -/
theorem final_state_facts (g : Depsgraph) (layers : Nat) (hwf : GraphWF g) :
    SchedInv g layers ∅ [] (finalState g layers) ∧
    (finalState g layers).pool = [] ∧
    (∀ c, c < g.operations.length → SProp g layers (finalState g layers) c) := by
  classical
  have hInv1 := prepass_Inv g layers
  have hpool1 := prepass_pool g layers
  obtain ⟨hpost, hsprop⟩ := seed_fold_spec g layers hwf
    (g.operations.length + 1) (Nat.lt_succ_self _)
    (List.range g.operations.length)
    (clear_done g (calculate_pending_parents g layers initState)) ∅ hInv1
  obtain ⟨O2, hInv2, _, _⟩ := hpost.inv
  have hmeas := hpost.meas
  have hb1 : (clear_done g (calculate_pending_parents g layers initState)).pool.length = 0 := by
    rw [hpool1]; rfl
  have hb2 := freeCount_le g (clear_done g (calculate_pending_parents g layers initState))
  have hfuel : (schedule_graph g layers (g.operations.length + 1)
        (clear_done g (calculate_pending_parents g layers initState))).pool.length
      + freeCount g (schedule_graph g layers (g.operations.length + 1)
        (clear_done g (calculate_pending_parents g layers initState)))
      < 2 * g.operations.length + 2 := by
    have : (schedule_graph g layers (g.operations.length + 1)
        (clear_done g (calculate_pending_parents g layers initState))) =
      (List.range g.operations.length).foldl
        (fun st i => schedule_node g layers (g.operations.length + 1) i false st)
        (clear_done g (calculate_pending_parents g layers initState)) := rfl
    rw [this]
    omega
  have hInv2' : SchedInv g layers O2 []
      (schedule_graph g layers (g.operations.length + 1)
        (clear_done g (calculate_pending_parents g layers initState))) := hInv2
  obtain ⟨hpoolF, ⟨O3, hInvF⟩, hmonoF, hexecF, hspresF⟩ :=
    run_pool_spec g layers hwf (g.operations.length + 2) (le_refl _)
      (2 * g.operations.length + 2)
      (schedule_graph g layers (g.operations.length + 1)
        (clear_done g (calculate_pending_parents g layers initState)))
      O2 hfuel hInv2'
  have hO3 : O3 = ∅ := by
    rw [Finset.eq_empty_iff_forall_not_mem]
    intro k hk
    rcases hInvF.ofanOwner k hk with h | h
    · rw [hpoolF] at h
      exact absurd h (List.not_mem_nil _)
    · exact absurd h (List.not_mem_nil _)
  refine ⟨hO3 ▸ hInvF, hpoolF, ?_⟩
  intro c hc
  exact hspresF c (hsprop c (List.mem_range.mpr hc))

/-- Completeness of the pass on acyclic dependency structure: every
eligible node ends up claimed (witnessed by a rank function decreasing
along counted dependencies). -/
theorem final_complete (g : Depsgraph) (layers : Nat) (hwf : GraphWF g)
    (rank : Nat → Nat)
    (hrk : ∀ k, k < g.rels.length → (relAt g k).from_op = true →
      (relAt g k).cyclic = false →
      rank (relAt g k).src < rank (relAt g k).dst) :
    ∀ c, c < g.operations.length → elig g layers c = true →
      (finalState g layers).scheduled c = true := by
  classical
  obtain ⟨hInv, hpool, hsprop⟩ := final_state_facts g layers hwf
  have main : ∀ m c, rank c < m → c < g.operations.length →
      elig g layers c = true → (finalState g layers).scheduled c = true := by
    intro m
    induction m with
    | zero => intro c h; exact absurd h (Nat.not_lt_zero _)
    | succ m IH =>
      intro c hrc hcn hel
      by_cases hs : (finalState g layers).scheduled c = true
      · exact hs
      have hs' : (finalState g layers).scheduled c = false := by
        cases h : (finalState g layers).scheduled c
        · rfl
        · exact absurd h hs
      have hpend := hInv.pendAcc c hel hs'
      have hz : countStill g layers (finalState g layers).scheduled ∅ c = 0 := by
        unfold countStill
        rw [List.length_eq_zero, List.filter_eq_nil_iff]
        intro k hk
        obtain ⟨hklt, hdst, hfrom, hcyc, helsrc⟩ := mem_depIdx.mp hk
        have hsrcn : (relAt g k).src < g.operations.length :=
          (hwf.1 (relAt g k) (relAt_bounds hklt)).2 hfrom
        have hrs : rank (relAt g k).src < rank c := hdst ▸ hrk k hklt hfrom hcyc
        have hsched := IH (relAt g k).src (by omega) hsrcn helsrc
        simp [hsched]
      have hzero : (finalState g layers).num_links_pending c = 0 := by
        rw [hpend, hz]
      exact hsprop c hcn hel hzero
  intro c hcn hel
  exact main (rank c + 1) c (Nat.lt_succ_self _) hcn hel

/-! ### The claims -/

/-- C3: after the readiness pre-pass every operation node has its
scheduled flag false and its pending count equal to the number of its
non-cyclic incoming relations from eligible operation sources when the
node itself is eligible, and 0 otherwise; and the sequential pre-pass
agrees with its synchronization-free parallel reading. -/
theorem C3_prepass_counts (g : Depsgraph) (layers : Nat) (st : EvalState) :
    (∀ c, c < g.operations.length →
      (calculate_pending_parents g layers st).scheduled c = false ∧
      (calculate_pending_parents g layers st).num_links_pending c =
        (if elig g layers c = true then (depIdx g layers c).length else 0)) ∧
    calculate_pending_parents g layers st =
      calculate_pending_parents_parallel g layers st := by
  obtain ⟨h1, h2, h3, h4, h5, h6, h7⟩ :=
    calc_pending_fold g layers (List.range g.operations.length) st
  constructor
  · intro c hc
    have hm := List.mem_range.mpr hc
    exact ⟨(h1 c hm).2, (h1 c hm).1⟩
  · refine EvalState.eq_of_fields ?_ ?_ h3 h4 h5 h6 h7
    · funext c
      by_cases hc : c < g.operations.length
      · have h := (h1 c (List.mem_range.mpr hc)).1
        have hpar : (calculate_pending_parents_parallel g layers st).num_links_pending c
            = pendingCount g layers c := by
          show (if c < g.operations.length then pendingCount g layers c
            else st.num_links_pending c) = pendingCount g layers c
          rw [if_pos hc]
        exact h.trans hpar.symm
      · have h := (h2 c (fun hm => hc (List.mem_range.mp hm))).1
        have hpar : (calculate_pending_parents_parallel g layers st).num_links_pending c
            = st.num_links_pending c := by
          show (if c < g.operations.length then pendingCount g layers c
            else st.num_links_pending c) = st.num_links_pending c
          rw [if_neg hc]
        exact h.trans hpar.symm
    · funext c
      by_cases hc : c < g.operations.length
      · have h := (h1 c (List.mem_range.mpr hc)).2
        have hpar : (calculate_pending_parents_parallel g layers st).scheduled c
            = false := by
          show (if c < g.operations.length then false else st.scheduled c) = false
          rw [if_pos hc]
        exact h.trans hpar.symm
      · have h := (h2 c (fun hm => hc (List.mem_range.mp hm))).2
        have hpar : (calculate_pending_parents_parallel g layers st).scheduled c
            = st.scheduled c := by
          show (if c < g.operations.length then false else st.scheduled c) = st.scheduled c
          rw [if_neg hc]
        exact h.trans hpar.symm

/-- C8: with an empty tag set DEG_evaluate_on_refresh_ex returns
immediately, handing back the context, graph and state untouched. -/
theorem C8_empty_tags_noop (eval_ctx : EvaluationContext) (g : Depsgraph)
    (layers : Nat) (st : EvalState) (htags : g.entry_tags.length = 0) :
    DEG_evaluate_on_refresh_ex eval_ctx g layers st = some (eval_ctx, g, st) := by
  unfold DEG_evaluate_on_refresh_ex
  rw [if_pos (by simpa using htags)]

theorem C8_witness :
    DEG_evaluate_on_refresh_ex ⟨0, 0⟩ wEmptyTags 1 initState =
      some (⟨0, 0⟩, wEmptyTags, initState) :=
  C8_empty_tags_noop ⟨0, 0⟩ wEmptyTags 1 initState (by decide)

/-- C9: a graph without a time source makes every entry point undefined
(modelled as none) whenever evaluation proceeds past the empty-tag
early out, and unconditionally for the refresh and framechange
wrappers. -/
theorem C9_null_time_source (eval_ctx : EvaluationContext) (g : Depsgraph)
    (layers : Nat) (st : EvalState) (scene_frame ctime : Int)
    (flush : Depsgraph → Depsgraph)
    (hts : g.time_source = none) (htags : g.entry_tags ≠ []) :
    DEG_evaluate_on_refresh_ex eval_ctx g layers st = none ∧
    DEG_evaluate_on_refresh eval_ctx g scene_frame st = none ∧
    DEG_evaluate_on_framechange flush eval_ctx g ctime layers st = none := by
  refine ⟨?_, ?_, ?_⟩
  · unfold DEG_evaluate_on_refresh_ex
    rw [if_neg (by simpa using htags), hts]
  · unfold DEG_evaluate_on_refresh
    rw [hts]
  · unfold DEG_evaluate_on_framechange
    rw [hts]

theorem C9_witness :
    DEG_evaluate_on_refresh_ex ⟨0, 0⟩ wNoTime 1 initState = none ∧
    DEG_evaluate_on_refresh ⟨0, 0⟩ wNoTime 7 initState = none ∧
    DEG_evaluate_on_framechange id ⟨0, 0⟩ wNoTime 7 1 initState = none :=
  C9_null_time_source ⟨0, 0⟩ wNoTime 1 initState 7 7 id rfl (by decide)

/-- C10: in the worker loop's single-successor case, a child that is
unclaimed but ineligible (no needs-update flag or outside the layer
mask) stops the loop with every pending counter and every claimed flag
exactly as before the iteration. -/
theorem C10_ineligible_child_frame (g : Depsgraph) (layers fuel i k : Nat)
    (st : EvalState)
    (hout : outlinksIdx g i = [k])
    (hsch : st.scheduled (relAt g k).dst = false)
    (hel : elig g layers (relAt g k).dst = false) :
    (deg_task_run_func g layers (fuel + 1) i st).num_links_pending =
      st.num_links_pending ∧
    (deg_task_run_func g layers (fuel + 1) i st).scheduled = st.scheduled := by
  have hs' : ((if (g.op i).evaluate then { st with visited := st.visited ++ [i], executed := st.executed ++ [i] } else { st with visited := st.visited ++ [i] }) : EvalState).scheduled (relAt g k).dst = false := by
    by_cases hev : (g.op i).evaluate = true
    · rw [if_pos hev]; exact hsch
    · rw [if_neg hev]; exact hsch
  have hres : deg_task_run_func g layers (fuel + 1) i st =
      (if (g.op i).evaluate then { st with visited := st.visited ++ [i], executed := st.executed ++ [i] } else { st with visited := st.visited ++ [i] }) := by
    rw [deg_task_run_func_succ, hout]
    simp only [hs', hel, Bool.not_false, if_true, if_false, Bool.false_eq_true]
  rw [hres]
  by_cases hev : (g.op i).evaluate = true
  · rw [if_pos hev]; exact ⟨rfl, rfl⟩
  · rw [if_neg hev]; exact ⟨rfl, rfl⟩

theorem C10_witness :
    outlinksIdx wLayers 0 = [0] ∧
    initState.scheduled (relAt wLayers 0).dst = false ∧
    elig wLayers 1 (relAt wLayers 0).dst = false ∧
    (deg_task_run_func wLayers 1 5 0 initState).num_links_pending =
      initState.num_links_pending ∧
    (deg_task_run_func wLayers 1 5 0 initState).scheduled =
      initState.scheduled := by
  refine ⟨by decide, rfl, by decide, ?_⟩
  exact C10_ineligible_child_frame wLayers 1 4 0 0 initState (by decide) rfl (by decide)

/-- C4: on the two-node all-cyclic graph the pass terminates with an
empty queue and each node executed exactly once (cyclic relations are
excluded from the pending accounting, so neither counter blocks). -/
theorem C4_cycle_terminates :
    (DEG_evaluate_on_refresh_ex ⟨0, 0⟩ wCycle 1 initState).map
      (fun out => (out.2.2.executed.count 0, out.2.2.executed.count 1,
        out.2.2.pool)) = some (1, 1, []) := by decide

/-- C5: on the four-node chain the pass executes all four nodes in
order while only the head of the chain is ever submitted to the pool;
the rest are reached by same-thread chaining. -/
theorem C5_chain_single_submission :
    (DEG_evaluate_on_refresh_ex ⟨0, 0⟩ wChain 1 initState).map
      (fun out => (out.2.2.executed, out.2.2.submitted)) =
      some ([0, 1, 2, 3], [0]) := by decide

/-- C6 (counterexample): on the graph whose second node is a NOOP, the
worker loop's iteration trace contains that node even though its
evaluate callback is null — a NOOP does reach the loop via same-thread
chaining, so the claimed loop-wide assertion does not hold (the source
itself only asserts it at loop entry and notes NOOPs can occur for
chained nodes). -/
theorem C6_noop_reaches_loop :
    (DEG_evaluate_on_refresh_ex ⟨0, 0⟩ wNoop 1 initState).map
      (fun out => out.2.2.visited) = some [0, 1] ∧
    (wNoop.op 1).evaluate = false := by decide

/-- C6 (amended): every node independently submitted to the worker
pool has a non-null evaluate callback — the loop-entry assertion holds
for submitted work — while NOOPs may still be reached inside the loop
by same-thread chaining (see the counterexample). -/
theorem C6_amended_submitted_have_work (eval_ctx : EvaluationContext)
    (g : Depsgraph) (layers : Nat) (ts : TimeSourceDepsNode)
    (hwf : GraphWF g) (htags : g.entry_tags ≠ [])
    (hts : g.time_source = some ts) :
    DEG_evaluate_on_refresh_ex eval_ctx g layers initState =
      some ({ eval_ctx with ctime := ts.cfra }, { g with entry_tags := [] },
        finalState g layers) ∧
    ∀ c ∈ (finalState g layers).submitted, (g.op c).evaluate = true :=
  ⟨DEG_refresh_ex_run eval_ctx g layers ts htags hts,
   (final_state_facts g layers hwf).1.subWork⟩

theorem C6_amended_witness :
    DEG_evaluate_on_refresh_ex ⟨0, 0⟩ wNoop 1 initState =
      some (⟨0, 5⟩, { wNoop with entry_tags := [] }, finalState wNoop 1) ∧
    (wNoop.op 0).evaluate = true := by
  have h := C6_amended_submitted_have_work ⟨0, 0⟩ wNoop 1 ⟨5⟩
    ⟨by decide, by decide⟩ (by decide) rfl
  exact ⟨h.1, h.2 0 (by decide)⟩

/-- C7: a node whose layer bitmask does not intersect the pass's
active layer mask is never executed, whatever its needs-update flag. -/
theorem C7_layer_mask_excludes (eval_ctx : EvaluationContext) (g : Depsgraph)
    (layers : Nat) (ts : TimeSourceDepsNode) (c : Nat)
    (hwf : GraphWF g) (htags : g.entry_tags ≠ [])
    (hts : g.time_source = some ts)
    (hlay : Nat.land (g.op c).id_layers layers = 0) :
    DEG_evaluate_on_refresh_ex eval_ctx g layers initState =
      some ({ eval_ctx with ctime := ts.cfra }, { g with entry_tags := [] },
        finalState g layers) ∧
    c ∉ (finalState g layers).executed := by
  refine ⟨DEG_refresh_ex_run eval_ctx g layers ts htags hts, ?_⟩
  intro hmem
  have hInv := (final_state_facts g layers hwf).1
  have hsch := hInv.memSched c (Or.inl hmem)
  have hel := hInv.schedElig c hsch
  unfold elig nodeInLayers at hel
  rw [hlay] at hel
  simp at hel

theorem C7_witness :
    DEG_evaluate_on_refresh_ex ⟨0, 0⟩ wLayers 1 initState =
      some (⟨0, 5⟩, { wLayers with entry_tags := [] }, finalState wLayers 1) ∧
    1 ∉ (finalState wLayers 1).executed :=
  C7_layer_mask_excludes ⟨0, 0⟩ wLayers 1 ⟨5⟩ 1 ⟨by decide, by decide⟩
    (by decide) rfl (by decide)

/-- C2: the executed trace of a pass respects dependencies: every
execution of a node is preceded by the executions of all its counted
(non-cyclic, eligible-source) dependencies that carry work. -/
theorem C2_execution_respects_deps (eval_ctx : EvaluationContext)
    (g : Depsgraph) (layers : Nat) (ts : TimeSourceDepsNode)
    (hwf : GraphWF g) (htags : g.entry_tags ≠ [])
    (hts : g.time_source = some ts) :
    DEG_evaluate_on_refresh_ex eval_ctx g layers initState =
      some ({ eval_ctx with ctime := ts.cfra }, { g with entry_tags := [] },
        finalState g layers) ∧
    execRespectsDeps g layers (finalState g layers).executed :=
  ⟨DEG_refresh_ex_run eval_ctx g layers ts htags hts,
   (final_state_facts g layers hwf).1.traceOrder⟩

theorem C2_witness :
    DEG_evaluate_on_refresh_ex ⟨0, 0⟩ wChain 1 initState =
      some (⟨0, 5⟩, { wChain with entry_tags := [] }, finalState wChain 1) ∧
    (relAt wChain 0).src ∈ (finalState wChain 1).executed.take 1 := by
  have h := C2_execution_respects_deps ⟨0, 0⟩ wChain 1 ⟨5⟩
    ⟨by decide, by decide⟩ (by decide) rfl
  exact ⟨h.1, h.2 1 1 (by decide) 0 (by decide) (by decide)⟩

/-- C1: on an acyclic graph (no relation flagged cyclic, and a rank
function certifying the operation relations form a DAG) a pass
executes each eligible node carrying work exactly once, and no node
more than once. -/
theorem C1_exactly_once (eval_ctx : EvaluationContext) (g : Depsgraph)
    (layers : Nat) (ts : TimeSourceDepsNode) (rank : Nat → Nat)
    (hwf : GraphWF g) (htags : g.entry_tags ≠ [])
    (hts : g.time_source = some ts)
    (hnc : ∀ r ∈ g.rels, r.cyclic = false)
    (hrk : ∀ k, k < g.rels.length → (relAt g k).from_op = true →
      rank (relAt g k).src < rank (relAt g k).dst) :
    DEG_evaluate_on_refresh_ex eval_ctx g layers initState =
      some ({ eval_ctx with ctime := ts.cfra }, { g with entry_tags := [] },
        finalState g layers) ∧
    (∀ c, c < g.operations.length → elig g layers c = true →
      (g.op c).evaluate = true → (finalState g layers).executed.count c = 1) ∧
    (∀ c, (finalState g layers).executed.count c ≤ 1) := by
  obtain ⟨hInv, hpool, hsprop⟩ := final_state_facts g layers hwf
  have hnodup : (finalState g layers).executed.Nodup := by
    have h := hInv.nodups
    rw [hpool, List.append_nil] at h
    exact h
  refine ⟨DEG_refresh_ex_run eval_ctx g layers ts htags hts, ?_, ?_⟩
  · intro c hcn hel hev
    have hsched := final_complete g layers hwf rank
      (fun k hk hf _ => hrk k hk hf) c hcn hel
    have hmem : c ∈ (finalState g layers).executed := by
      rcases hInv.schedRun c hsched hev with h | h | h
      · exact h
      · rw [hpool] at h
        exact absurd h (List.not_mem_nil _)
      · exact absurd h (List.not_mem_nil _)
    exact List.count_eq_one_of_mem hnodup hmem
  · intro c
    exact List.nodup_iff_count_le_one.mp hnodup c

theorem C1_witness :
    DEG_evaluate_on_refresh_ex ⟨0, 0⟩ wChain 1 initState =
      some (⟨0, 5⟩, { wChain with entry_tags := [] }, finalState wChain 1) ∧
    (finalState wChain 1).executed.count 2 = 1 := by
  have h := C1_exactly_once ⟨0, 0⟩ wChain 1 ⟨5⟩ (fun c => c)
    ⟨by decide, by decide⟩ (by decide) rfl (by decide) (by decide)
  exact ⟨h.1, h.2.1 2 (by decide) (by decide) (by decide)⟩
